import Mathlib

set_option linter.unusedVariables false

/-!
Verification of the clangd-index RIFF decoder (`src/riff.py`).

The decoder is embedded shallowly:

* Python byte strings become `List Nat` with each entry a byte value;
  `BytesIO` / the opened file becomes `ByteStream`, a buffer plus a cursor.
* `stream.read n` returns up to `n` bytes and advances the cursor by the
  number of bytes actually returned; it never fails (`int.from_bytes` of an
  empty byte string is `0`).
* Python exceptions raised during a decode (ValueError for an unknown chunk
  tag or an enumeration byte outside its range, IndexError for a string
  table index, zlib.error for a decompression failure, AttributeError for a
  missing string table) become the `Except ParseError` monad.
* `zlib.decompress` is external library code, not part of this repository;
  it is modelled as an explicit parameter `dc : List Nat → Option (List Nat)`
  (`none` models a raised zlib.error).  Its `bufsize` keyword argument is an
  initial output-buffer size hint in CPython and has no effect on the result,
  so it is not passed to the model.
* The `bytes.decode` call in `parse_stri` is Python's strict UTF-8 codec;
  it is modelled by `utf8Decode`, which yields the code point sequence of a
  valid UTF-8 byte list and fails (UnicodeDecodeError) otherwise.  Python
  `str` values are therefore kept as code point lists, and the null split
  performed by `parse_stri` acts on code point 0, as in the source's split
  of the decoded string.
* The unbounded Python `while` loops are given structural fuel; every loop
  is only ever run with fuel at least the number of remaining bytes plus
  one, which the progress lemmas below show is never exhausted, and the
  fuel-zero branch returns exactly what the ordinary loop exit returns.
-/

namespace Riff

/-- A sequential byte reader over an in-memory buffer, modelling Python
BytesIO and the opened index file: `data` is the byte sequence and `pos`
the current position as reported by `tell`. -/
structure ByteStream where
  data : List Nat
  pos : Nat
deriving DecidableEq

/-- Python `stream.read n`: return up to `n` bytes from the current
position and advance the position by the number of bytes actually read; a
short read at the end of the buffer returns fewer bytes without error. -/
def readBytes (s : ByteStream) (n : Nat) : List Nat × ByteStream :=
  let bs := (s.data.drop s.pos).take n
  (bs, ⟨s.data, s.pos + bs.length⟩)

/-- Python `int.from_bytes` with little-endian byte order; the empty byte
string yields `0`. -/
def fromBytesLE (bs : List Nat) : Nat :=
  bs.foldr (fun b acc => b + 256 * acc) 0

/-- One lowercase hexadecimal digit, as produced by Python `bytes.hex`. -/
def hexDigit (n : Nat) : Char :=
  if n < 10 then Char.ofNat (48 + n) else Char.ofNat (87 + n)

/-- Lowercase hexadecimal string of a byte list, Python `bytes.hex`. -/
def bytesHex (bs : List Nat) : String :=
  String.mk ((bs.map (fun b => [hexDigit (b / 16), hexDigit (b % 16)])).flatten)

/-- `ClangIndex.consume_id`: read 8 bytes and return their lowercase hex
string.  A short read at the end of the buffer hexes only the available
bytes; at exhaustion the result is the empty string. -/
def consume_id (s : ByteStream) : String × ByteStream :=
  let p := readBytes s 8
  (bytesHex p.1, p.2)

/-- `ClangIndex.consume8`: read one byte as a little-endian integer.  At
exhaustion `read` returns the empty byte string and the value is `0`. -/
def consume8 (s : ByteStream) : Nat × ByteStream :=
  let p := readBytes s 1
  (fromBytesLE p.1, p.2)

/-- The while loop of `ClangIndex.consume_var`: while the last byte had its
continuation bit set and the running shift is below 32, read another byte
and or its low 7 bits, shifted, into the accumulator.  For byte values
below 256, which is all `consume8` can produce from a Python byte buffer,
the Python expression b AND NOT 128 equals b AND 127. -/
def varLoop (b val shift : Nat) (s : ByteStream) : Nat × ByteStream :=
  if h : b &&& 128 ≠ 0 ∧ shift < 32 then
    let p := consume8 s
    varLoop p.1 (val ||| ((p.1 &&& 127) <<< shift)) (shift + 7) p.2
  else
    (val, s)
termination_by 32 - shift
decreasing_by omega

/-- `ClangIndex.consume_var`: decode an unsigned base-128 varint; a first
byte with a clear continuation bit is returned as the value directly. -/
def consume_var (s : ByteStream) : Nat × ByteStream :=
  let p := consume8 s
  if p.1 &&& 128 = 0 then p
  else varLoop p.1 (p.1 &&& 127) 7 p.2

/-- Failure conditions of the decoder.  The Python code surfaces these as
exceptions: ValueError for an unknown chunk tag and for an enumeration byte
outside its range, IndexError for a string-table index out of range,
zlib.error for a decompression failure, UnicodeDecodeError when the
decompressed string-table block is not valid UTF-8, and AttributeError when
a chunk resolves string indices before any stri chunk built the table. -/
inductive ParseError where
  | UnknownChunkTag (tag : String)
  | InvalidEnumValue
  | StringIndexOutOfRange
  | StringTableCorrupt
  | Utf8DecodeError
  | StringTableMissing
deriving DecidableEq

/-- The decoded string table: the null-split segments of the decoded
stri payload, each kept as its code point list. -/
abbrev StringTable := List (List Nat)

/-- Indexing into the string table, Python `self.string_table` subscripted
with the decoded index; a nonnegative index at or past the length raises
IndexError. -/
def lookupString (tbl : StringTable) (idx : Nat) : Except ParseError (List Nat) :=
  if h : idx < tbl.length then .ok (tbl.get ⟨idx, h⟩)
  else .error .StringIndexOutOfRange

/-- `ClangIndex.consume_string`: decode a varint index and resolve it in
the session string table.  Before a stri chunk is parsed the attribute is
missing and Python raises AttributeError, modelled by `StringTableMissing`. -/
def consume_string (tbl : Option StringTable) (s : ByteStream) :
    Except ParseError (List Nat × ByteStream) :=
  let p := consume_var s
  match tbl with
  | none => .error .StringTableMissing
  | some t =>
    match lookupString t p.1 with
    | .error e => .error e
    | .ok v => .ok (v, p.2)

/-- A line-column pair of a source position. -/
structure LineColumn where
  line : Nat
  column : Nat
deriving DecidableEq

/-- A source span: resolved file string plus start and end positions. -/
structure Location where
  file_uri : List Nat
  start : LineColumn
  end_ : LineColumn
deriving DecidableEq

/-- `ClangIndex.read_location`: one resolved string then four varints, in
the order start line, start column, end line, end column. -/
def read_location (tbl : Option StringTable) (s : ByteStream) :
    Except ParseError (Location × ByteStream) :=
  match consume_string tbl s with
  | .error e => .error e
  | .ok q =>
    let p1 := consume_var q.2
    let p2 := consume_var p1.2
    let p3 := consume_var p2.2
    let p4 := consume_var p3.2
    .ok (⟨q.1, ⟨p1.1, p2.1⟩, ⟨p3.1, p4.1⟩⟩, p4.2)

/-- Membership in the `SymbolKind` IntEnum: values 1 through 26.  Python
constructs `SymbolKind` from the raw byte and raises ValueError otherwise. -/
def validSymbolKind (n : Nat) : Bool := decide (1 ≤ n ∧ n ≤ 26)

/-- Membership in the `SymbolLanguage` IntEnum: values 0 through 3. -/
def validSymbolLanguage (n : Nat) : Bool := decide (n ≤ 3)

/-- One include-header entry of a symbol: the resolved header string and
the varint packing a reference count above a 2-bit directive mask. -/
structure IncludeHeader where
  header : List Nat
  references : Nat
  supported_directives : Nat
deriving DecidableEq

/-- A decoded symbol record, fields in the dictionary order the Python code
builds. -/
structure Symbol where
  id : String
  kind : Nat
  lang : Nat
  name : List Nat
  scope : List Nat
  template_specialization_args : List Nat
  definition : Location
  canonical_declaration : Location
  references : Nat
  flags : Nat
  signature : List Nat
  completion_snippet_suffix : List Nat
  documentation : List Nat
  return_type : List Nat
  type : List Nat
  include_headers : List IncludeHeader
deriving DecidableEq

/-- The include-header loop at the end of `ClangIndex.read_symbol`: one
resolved string plus one varint per entry, the varint shifted right 2 for
the reference count and masked with 3 for the directive bits. -/
def readIncludeHeaders (tbl : Option StringTable) :
    Nat → ByteStream → Except ParseError (List IncludeHeader × ByteStream)
  | 0, s => .ok ([], s)
  | n + 1, s =>
    match consume_string tbl s with
    | .error e => .error e
    | .ok q =>
      let p := consume_var q.2
      match readIncludeHeaders tbl n p.2 with
      | .error e => .error e
      | .ok r => .ok (⟨q.1, p.1 >>> 2, p.1 &&& 3⟩ :: r.1, r.2)

/-- `ClangIndex.read_symbol`: one fixed-shape symbol record, reads in
source order. -/
def read_symbol (tbl : Option StringTable) (s : ByteStream) :
    Except ParseError (Symbol × ByteStream) :=
  let pid := consume_id s
  let pk := consume8 pid.2
  if validSymbolKind pk.1 = false then .error .InvalidEnumValue else
  let pl := consume8 pk.2
  if validSymbolLanguage pl.1 = false then .error .InvalidEnumValue else
  match consume_string tbl pl.2 with
  | .error e => .error e
  | .ok qname =>
  match consume_string tbl qname.2 with
  | .error e => .error e
  | .ok qscope =>
  match consume_string tbl qscope.2 with
  | .error e => .error e
  | .ok qtmpl =>
  match read_location tbl qtmpl.2 with
  | .error e => .error e
  | .ok qdef =>
  match read_location tbl qdef.2 with
  | .error e => .error e
  | .ok qdecl =>
  let prefs := consume_var qdecl.2
  let pflags := consume8 prefs.2
  match consume_string tbl pflags.2 with
  | .error e => .error e
  | .ok qsig =>
  match consume_string tbl qsig.2 with
  | .error e => .error e
  | .ok qsnip =>
  match consume_string tbl qsnip.2 with
  | .error e => .error e
  | .ok qdoc =>
  match consume_string tbl qdoc.2 with
  | .error e => .error e
  | .ok qret =>
  match consume_string tbl qret.2 with
  | .error e => .error e
  | .ok qtype =>
  let psize := consume_var qtype.2
  match readIncludeHeaders tbl psize.1 psize.2 with
  | .error e => .error e
  | .ok qhdrs =>
    .ok (⟨pid.1, pk.1, pl.1, qname.1, qscope.1, qtmpl.1, qdef.1, qdecl.1,
          prefs.1, pflags.1, qsig.1, qsnip.1, qdoc.1, qret.1, qtype.1,
          qhdrs.1⟩, qhdrs.2)

/-- Python `str.split` with a separator argument, acting on the NUL code
point: every separator occurrence splits, empty segments are kept, and the
empty input yields one empty segment. -/
def splitNull : List Nat → List (List Nat)
  | [] => [[]]
  | b :: rest =>
    if b = 0 then [] :: splitNull rest
    else
      match splitNull rest with
      | [] => [[b]]
      | seg :: segs => (b :: seg) :: segs

/-- A UTF-8 continuation byte, high bits 10. -/
def isCont (b : Nat) : Bool := decide (128 ≤ b ∧ b ≤ 191)

/-- Python `bytes.decode` with its default strict UTF-8 codec, on the byte
list: the code point sequence when the bytes are valid UTF-8, and `none`,
modelling a raised UnicodeDecodeError, otherwise.  The accepted sequences
are those of the Unicode standard, which CPython enforces: one byte 00-7F;
C2-DF then a continuation byte; E0 A0-BF, E1-EC 80-BF, ED 80-9F (no
surrogates) or EE-EF 80-BF, then a continuation byte; F0 90-BF, F1-F3
80-BF or F4 80-8F, then two continuation bytes.  Overlong forms, lone or
misplaced continuation bytes, bytes F5 and above, and truncated sequences
all fail. -/
def utf8Decode : List Nat → Option (List Nat)
  | [] => some []
  | b :: rest =>
    if b ≤ 127 then
      match utf8Decode rest with
      | none => none
      | some cs => some (b :: cs)
    else if 194 ≤ b ∧ b ≤ 223 then
      match rest with
      | [] => none
      | b1 :: rest1 =>
        if isCont b1 then
          match utf8Decode rest1 with
          | none => none
          | some cs => some ((((b &&& 31) <<< 6) ||| (b1 &&& 63)) :: cs)
        else none
    else if 224 ≤ b ∧ b ≤ 239 then
      match rest with
      | b1 :: b2 :: rest2 =>
        if ((if b = 224 then decide (160 ≤ b1 ∧ b1 ≤ 191)
             else if b = 237 then decide (128 ≤ b1 ∧ b1 ≤ 159)
             else isCont b1) && isCont b2) then
          match utf8Decode rest2 with
          | none => none
          | some cs =>
            some ((((b &&& 15) <<< 12) ||| ((b1 &&& 63) <<< 6) |||
              (b2 &&& 63)) :: cs)
        else none
      | _ => none
    else if 240 ≤ b ∧ b ≤ 244 then
      match rest with
      | b1 :: b2 :: b3 :: rest3 =>
        if ((if b = 240 then decide (144 ≤ b1 ∧ b1 ≤ 191)
             else if b = 244 then decide (128 ≤ b1 ∧ b1 ≤ 143)
             else isCont b1) && isCont b2 && isCont b3) then
          match utf8Decode rest3 with
          | none => none
          | some cs =>
            some ((((b &&& 7) <<< 18) ||| ((b1 &&& 63) <<< 12) |||
              ((b2 &&& 63) <<< 6) ||| (b3 &&& 63)) :: cs)
        else none
      | _ => none
    else none

/-- `ClangIndex.parse_meta`: the whole payload as one little-endian
integer. -/
def parse_meta (data : List Nat) : Nat := fromBytesLE data

/-- `ClangIndex.parse_stri`: read the u32 size field, decompress the rest,
decode the bytes as strict UTF-8 and split the resulting string on NUL.
The size field is passed to `zlib.decompress` only as the `bufsize` hint,
which does not constrain the output, and the decompressed length is never
compared against it. -/
def parse_stri (dc : List Nat → Option (List Nat)) (data : List Nat) :
    Except ParseError StringTable :=
  let uncompressed_size := fromBytesLE (data.take 4)
  let compressed_data := data.drop 4
  match dc compressed_data with
  | none => .error .StringTableCorrupt
  | some uncompressed_data =>
    match utf8Decode uncompressed_data with
    | none => .error .Utf8DecodeError
    | some decoded => .ok (splitNull decoded)

/-- A relation record: three raw bytes. -/
structure Relation where
  subject : Nat
  predicate : Nat
  object : Nat
deriving DecidableEq

/-- One iteration of the `ClangIndex.parse_rela` loop.  It performs no
validation, so it never returns an error; the `Except` type matches the
shared record loop. -/
def relaStep (s : ByteStream) : Except ParseError (Relation × ByteStream) :=
  let p1 := consume8 s
  let p2 := consume8 p1.2
  let p3 := consume8 p2.2
  .ok (⟨p1.1, p2.1, p3.1⟩, p3.2)

/-- One entry of a reference record. -/
structure Reference where
  kind : Nat
  location : Location
  container : String
deriving DecidableEq

/-- A reference record: a symbol id and its list of references. -/
structure RefRecord where
  symbol_id : String
  references : List Reference
deriving DecidableEq

/-- The inner loop of `ClangIndex.parse_refs`: a kind byte, a location and
a container id per entry. -/
def readReferences (tbl : Option StringTable) :
    Nat → ByteStream → Except ParseError (List Reference × ByteStream)
  | 0, s => .ok ([], s)
  | n + 1, s =>
    let pk := consume8 s
    match read_location tbl pk.2 with
    | .error e => .error e
    | .ok q =>
      let pc := consume_id q.2
      match readReferences tbl n pc.2 with
      | .error e => .error e
      | .ok r => .ok (⟨pk.1, q.1, pc.1⟩ :: r.1, r.2)

/-- One iteration of the `ClangIndex.parse_refs` loop: a symbol id, a
varint count and that many reference entries. -/
def refsStep (tbl : Option StringTable) (s : ByteStream) :
    Except ParseError (RefRecord × ByteStream) :=
  let pid := consume_id s
  let pn := consume_var pid.2
  match readReferences tbl pn.1 pn.2 with
  | .error e => .error e
  | .ok r => .ok (⟨pid.1, r.1⟩, r.2)

/-- A source record. -/
structure SrcRecord where
  flags : Nat
  uri : List Nat
  digest : List Nat
  direct_includes : List (List Nat)
deriving DecidableEq

/-- A counted loop of resolved strings, shared by the srcs include list and
the cmdl argument list. -/
def readStringList (tbl : Option StringTable) :
    Nat → ByteStream → Except ParseError (List (List Nat) × ByteStream)
  | 0, s => .ok ([], s)
  | n + 1, s =>
    match consume_string tbl s with
    | .error e => .error e
    | .ok q =>
      match readStringList tbl n q.2 with
      | .error e => .error e
      | .ok r => .ok (q.1 :: r.1, r.2)

/-- One iteration of the `ClangIndex.parse_srcs` loop: a flag byte read as
a little-endian integer inline in the source, a resolved URI, 8 raw digest
bytes kept as bytes, then a counted include list. -/
def srcsStep (tbl : Option StringTable) (s : ByteStream) :
    Except ParseError (SrcRecord × ByteStream) :=
  let pf := consume8 s
  match consume_string tbl pf.2 with
  | .error e => .error e
  | .ok quri =>
    let pd := readBytes quri.2 8
    let pn := consume_var pd.2
    match readStringList tbl pn.1 pn.2 with
    | .error e => .error e
    | .ok r => .ok (⟨pf.1, quri.1, pd.1, r.1⟩, r.2)

/-- A compile-command record. -/
structure CmdRecord where
  directory : List Nat
  commands : List (List Nat)
deriving DecidableEq

/-- One iteration of the `ClangIndex.parse_cmdl` loop: a resolved working
directory then a counted argument list. -/
def cmdlStep (tbl : Option StringTable) (s : ByteStream) :
    Except ParseError (CmdRecord × ByteStream) :=
  match consume_string tbl s with
  | .error e => .error e
  | .ok qdir =>
    let pn := consume_var qdir.2
    match readStringList tbl pn.1 pn.2 with
    | .error e => .error e
    | .ok r => .ok (⟨qdir.1, r.1⟩, r.2)

/-- The per-record while loop shared by the record decoders: while the
cursor is before the end of the payload, decode one record and append it; a
decode error aborts the whole chunk with no partial list.  Fuel bounds the
iterations.  Callers pass the number of remaining bytes, which the progress
lemmas below show is never exhausted because each record consumes at least
one byte while bytes remain; and the fuel-zero branch returns exactly what
the ordinary loop exit returns whenever the cursor is at or past the end. -/
def recordLoopF {α : Type} (step : ByteStream → Except ParseError (α × ByteStream)) :
    Nat → ByteStream → Except ParseError (List α × ByteStream)
  | 0, s => .ok ([], s)
  | fuel + 1, s =>
    if s.pos < s.data.length then
      match step s with
      | .error e => .error e
      | .ok p =>
        match recordLoopF step fuel p.2 with
        | .error e => .error e
        | .ok r => .ok (p.1 :: r.1, r.2)
    else
      .ok ([], s)

/-- `ClangIndex.parse_symb`: the record loop over `read_symbol`.  The final
stream is kept alongside the record list for the boundary statements; the
Python function returns just the list. -/
def parse_symb (tbl : Option StringTable) (data : List Nat) :
    Except ParseError (List Symbol × ByteStream) :=
  recordLoopF (read_symbol tbl) data.length ⟨data, 0⟩

/-- `ClangIndex.parse_refs`. -/
def parse_refs (tbl : Option StringTable) (data : List Nat) :
    Except ParseError (List RefRecord × ByteStream) :=
  recordLoopF (refsStep tbl) data.length ⟨data, 0⟩

/-- `ClangIndex.parse_rela`. -/
def parse_rela (data : List Nat) :
    Except ParseError (List Relation × ByteStream) :=
  recordLoopF relaStep data.length ⟨data, 0⟩

/-- `ClangIndex.parse_srcs`. -/
def parse_srcs (tbl : Option StringTable) (data : List Nat) :
    Except ParseError (List SrcRecord × ByteStream) :=
  recordLoopF (srcsStep tbl) data.length ⟨data, 0⟩

/-- `ClangIndex.parse_cmdl`. -/
def parse_cmdl (tbl : Option StringTable) (data : List Nat) :
    Except ParseError (List CmdRecord × ByteStream) :=
  recordLoopF (cmdlStep tbl) data.length ⟨data, 0⟩

/-- The decoded value stored under a chunk tag in the session result. -/
inductive ChunkValue where
  | meta (version : Nat)
  | stri (table : StringTable)
  | symb (symbols : List Symbol)
  | refs (refs : List RefRecord)
  | rela (relations : List Relation)
  | srcs (sources : List SrcRecord)
  | cmdl (commands : List CmdRecord)
deriving DecidableEq

/-- The mutable decoder state that later chunks read: the string table
attribute that `parse_stri` assigns on the `ClangIndex` object. -/
structure Session where
  string_table : Option StringTable
deriving DecidableEq

/-- The meta chunk tag. -/
def metaTag : String := "meta"

/-- The string-table chunk tag. -/
def striTag : String := "stri"

/-- The symbol chunk tag. -/
def symbTag : String := "symb"

/-- The reference chunk tag. -/
def refsTag : String := "refs"

/-- The relation chunk tag. -/
def relaTag : String := "rela"

/-- The source-file chunk tag. -/
def srcsTag : String := "srcs"

/-- The compile-command chunk tag. -/
def cmdlTag : String := "cmdl"

/-- The seven recognized chunk tags. -/
def recognizedTags : List String :=
  [metaTag, striTag, symbTag, refsTag, relaTag, srcsTag, cmdlTag]

/-- `ClangIndex.parse_data`: route a chunk payload by its tag string; a tag
matching none of the seven recognized tags raises ValueError.  On a stri
chunk the produced table becomes the session string table. -/
def parse_data (dc : List Nat → Option (List Nat)) (sess : Session)
    (tag : String) (data : List Nat) : Except ParseError (ChunkValue × Session) :=
  if tag = metaTag then .ok (.meta (parse_meta data), sess)
  else if tag = striTag then
    match parse_stri dc data with
    | .error e => .error e
    | .ok tbl => .ok (.stri tbl, ⟨some tbl⟩)
  else if tag = symbTag then
    match parse_symb sess.string_table data with
    | .error e => .error e
    | .ok r => .ok (.symb r.1, sess)
  else if tag = refsTag then
    match parse_refs sess.string_table data with
    | .error e => .error e
    | .ok r => .ok (.refs r.1, sess)
  else if tag = relaTag then
    match parse_rela data with
    | .error e => .error e
    | .ok r => .ok (.rela r.1, sess)
  else if tag = srcsTag then
    match parse_srcs sess.string_table data with
    | .error e => .error e
    | .ok r => .ok (.srcs r.1, sess)
  else if tag = cmdlTag then
    match parse_cmdl sess.string_table data with
    | .error e => .error e
    | .ok r => .ok (.cmdl r.1, sess)
  else .error (.UnknownChunkTag tag)

/-- Python dict assignment on the session result: replace the value of an
existing key in place, or append a new binding. -/
def insertReplace : List (String × ChunkValue) → String → ChunkValue →
    List (String × ChunkValue)
  | [], tag, v => [(tag, v)]
  | (t, w) :: rest, tag, v =>
    if t = tag then (t, v) :: rest else (t, w) :: insertReplace rest tag v

/-- Python dict lookup on the session result. -/
def lookupTag : List (String × ChunkValue) → String → Option ChunkValue
  | [], _ => none
  | (t, v) :: rest, tag => if t = tag then some v else lookupTag rest tag

/-- Decode tag bytes to a string.  Python calls bytes.decode; all real tags
are ASCII, where UTF-8 decoding maps each byte to the code point of the
same value. -/
def bytesToString (bs : List Nat) : String :=
  String.mk (bs.map Char.ofNat)

/-- `ClangIndex.parse_chunk`: a 4-byte tag and a u32 little-endian size. -/
def parse_chunk (s : ByteStream) : (List Nat × Nat) × ByteStream :=
  let pid := readBytes s 4
  let psz := readBytes pid.2 4
  ((pid.1, fromBytesLE psz.1), psz.2)

/-- The chunk loop of `ClangIndex.parse_riff_file`: while the absolute file
position is below the size field of the header, read a chunk header, slice
the payload, decode it, and store the result under the tag with Python dict
assignment.  Fuel bounds the iterations; the caller passes the number of
remaining bytes plus one, which is enough: an iteration with bytes
remaining consumes at least one, and an iteration past the end of the file
reads an empty tag that `parse_data` rejects, and with such fuel the
fuel-zero branch is only reachable with the position at or past the bound,
where it returns exactly what the ordinary loop exit returns. -/
def riffLoopF (dc : List Nat → Option (List Nat)) :
    Nat → Nat → Session → List (String × ChunkValue) → ByteStream →
    Except ParseError (List (String × ChunkValue))
  | 0, _, _, acc, _ => .ok acc
  | fuel + 1, riff_size, sess, acc, s =>
    if s.pos < riff_size then
      let pc := parse_chunk s
      let pd := readBytes pc.2 pc.1.2
      let tag := bytesToString pc.1.1
      match parse_data dc sess tag pd.1 with
      | .error e => .error e
      | .ok r => riffLoopF dc fuel riff_size r.2 (insertReplace acc tag r.1) pd.2
    else
      .ok acc

/-- `ClangIndex.parse_riff_file`: read the 12-byte container header, whose
two tags are read but not validated, then run the chunk loop comparing the
absolute position against the raw size field. -/
def parse_riff_file (dc : List Nat → Option (List Nat)) (bytes : List Nat) :
    Except ParseError (List (String × ChunkValue)) :=
  let s0 : ByteStream := ⟨bytes, 0⟩
  let pid := readBytes s0 4
  let psz := readBytes pid.2 4
  let riff_size := fromBytesLE psz.1
  let pfmt := readBytes psz.2 4
  riffLoopF dc (bytes.length - pfmt.2.pos + 1) riff_size ⟨none⟩ [] pfmt.2

/-- The byte the next single-byte read at offset `i` from the cursor would
yield: the buffer entry while in range, and 0 past the end, exactly as
`consume8` behaves on an exhausted stream. -/
def nextByte (s : ByteStream) (i : Nat) : Nat :=
  s.data.getD (s.pos + i) 0

/-- The stream after reading `k` bytes: the position advances by `k` but
never past the end of the buffer. -/
def advance (s : ByteStream) (k : Nat) : ByteStream :=
  ⟨s.data, s.pos + min k (s.data.length - s.pos)⟩

/-- The documented varint accumulation policy, value and number of bytes
consumed: 7-bit groups are ored in at shifts 0, 7, 14, 21, 28; reading
stops after the first byte whose continuation bit is clear, or after the
fifth byte once the running shift has reached 32, whichever comes first. -/
def varPolicy (s : ByteStream) : Nat × Nat :=
  if nextByte s 0 &&& 128 = 0 then (nextByte s 0, 1)
  else if nextByte s 1 &&& 128 = 0 then
    ((nextByte s 0 &&& 127) ||| ((nextByte s 1 &&& 127) <<< 7), 2)
  else if nextByte s 2 &&& 128 = 0 then
    ((nextByte s 0 &&& 127) ||| ((nextByte s 1 &&& 127) <<< 7) |||
      ((nextByte s 2 &&& 127) <<< 14), 3)
  else if nextByte s 3 &&& 128 = 0 then
    ((nextByte s 0 &&& 127) ||| ((nextByte s 1 &&& 127) <<< 7) |||
      ((nextByte s 2 &&& 127) <<< 14) ||| ((nextByte s 3 &&& 127) <<< 21), 4)
  else
    ((nextByte s 0 &&& 127) ||| ((nextByte s 1 &&& 127) <<< 7) |||
      ((nextByte s 2 &&& 127) <<< 14) ||| ((nextByte s 3 &&& 127) <<< 21) |||
      ((nextByte s 4 &&& 127) <<< 28), 5)

/-- Modelled from the spec: the standard continuation-bit base-128 varint
encoder.  The repository only decodes; this encoder follows the external
interface section of the specification, low 7 bits first with the high bit
marking continuation. -/
def encode_var (n : Nat) : List Nat :=
  if h : n < 128 then [n]
  else (n % 128 + 128) :: encode_var (n / 128)
termination_by n
decreasing_by
  exact Nat.div_lt_self (by omega) (by omega)

/-- The code points of a tag string as bytes, the inverse of
`bytesToString` on ASCII tags. -/
def stringToBytes (t : String) : List Nat :=
  t.data.map Char.toNat

/-- A u32 little-endian encoding of a length field. -/
def u32le (n : Nat) : List Nat :=
  [n % 256, n / 256 % 256, n / 65536 % 256, n / 16777216 % 256]

/-- The byte encoding of one chunk: tag, u32 payload size, payload. -/
def encodeChunk (c : String × List Nat) : List Nat :=
  stringToBytes c.1 ++ u32le c.2.length ++ c.2

/-- The byte encoding of a chunk sequence. -/
def encodeChunks : List (String × List Nat) → List Nat
  | [] => []
  | c :: cs => encodeChunk c ++ encodeChunks cs

/-- The container tag of the files the tool reads. -/
def riffTag : String := "RIFF"

/-- The format tag of the files the tool reads. -/
def fmtTag : String := "CIdx"

/-- A whole container: 12-byte header whose size field equals the total
file length, as required for the chunk loop to consume every chunk, then
the encoded chunks. -/
def encodeFile (chunks : List (String × List Nat)) : List Nat :=
  let body := encodeChunks chunks
  stringToBytes riffTag ++ u32le (12 + body.length) ++ stringToBytes fmtTag ++ body

/-- The chunk loop replayed over an already-split chunk list: decode each
chunk in order, threading the session and storing results with dict
assignment.  The bridge lemma below shows the byte-level loop computes
this on an encoded container. -/
def foldChunks (dc : List Nat → Option (List Nat)) :
    Session → List (String × ChunkValue) → List (String × List Nat) →
    Except ParseError (List (String × ChunkValue))
  | _, acc, [] => .ok acc
  | sess, acc, c :: cs =>
    match parse_data dc sess c.1 c.2 with
    | .error e => .error e
    | .ok r => foldChunks dc r.2 (insertReplace acc c.1 r.1) cs

/-- A tag whose encoding is 4 single-byte characters, as all real chunk
tags are. -/
abbrev GoodTag (t : String) : Prop := t.data.length = 4

/-- The kind byte of a symbol record starting at the cursor: the byte after
the 8 id bytes. -/
def kindByte (s : ByteStream) : Nat := (consume8 (consume_id s).2).1

/-- The language byte of a symbol record starting at the cursor: the byte
after the kind byte. -/
def langByte (s : ByteStream) : Nat := (consume8 (consume8 (consume_id s).2).2).1

/-- An unrecognized chunk tag used in counterexample containers. -/
def xxxxTag : String := "xxxx"

/-- A decompression stub that always fails, for containers whose decode
never reaches the string table. -/
def dcNone : List Nat → Option (List Nat) := fun _ => none

/-- A decompression stub with a fixed 3-byte ASCII output, used to exhibit
that the declared uncompressed size is not validated. -/
def dcFix : List Nat → Option (List Nat) := fun _ => some [97, 0, 98]

/-- A decompression stub whose output, the lone byte 255, is not valid
UTF-8, exercising the strict-decode failure path of the string table. -/
def dcBadUtf8 : List Nat → Option (List Nat) := fun _ => some [255]

/-- A stri payload declaring uncompressed size 9 over a 1-byte compressed
block. -/
def striBad : List Nat := [9, 0, 0, 0, 0]

/-- The empty, exhausted stream. -/
def emptyStream : ByteStream := ⟨[], 0⟩

/-- A container holding two rela chunks, for the duplicate-tag witness. -/
def chunksDup : List (String × List Nat) :=
  [(relaTag, [1, 2, 3]), (relaTag, [4, 5, 6])]

/-- A container holding one symb chunk whose kind byte is 99. -/
def symbBadFile : List Nat :=
  encodeFile [(symbTag, [0, 0, 0, 0, 0, 0, 0, 0, 99])]

/-! Basic facts about the byte cursor. -/

lemma readBytes_snd (s : ByteStream) (n : Nat) : (readBytes s n).2 = advance s n := by
  unfold readBytes advance
  simp [List.length_take, List.length_drop]

lemma readBytes_fst (s : ByteStream) (n : Nat) :
    (readBytes s n).1 = (s.data.drop s.pos).take n := rfl

lemma advance_data (s : ByteStream) (k : Nat) : (advance s k).data = s.data := rfl

lemma advance_pos_le (s : ByteStream) (k : Nat) :
    s.pos ≤ (advance s k).pos ∧ (advance s k).pos ≤ max s.pos s.data.length := by
  unfold advance
  dsimp only
  omega

lemma advance_advance (s : ByteStream) (j k : Nat) :
    advance (advance s j) k = advance s (j + k) := by
  unfold advance
  simp only [ByteStream.mk.injEq, true_and]
  omega

lemma nextByte_advance (s : ByteStream) (j i : Nat) :
    nextByte (advance s j) i = nextByte s (j + i) := by
  unfold nextByte advance
  by_cases hj : j ≤ s.data.length - s.pos
  · have he : s.pos + min j (s.data.length - s.pos) + i = s.pos + (j + i) := by omega
    simp only [he]
  · have h1 : s.data.length ≤ s.pos + min j (s.data.length - s.pos) + i := by omega
    have h2 : s.data.length ≤ s.pos + (j + i) := by omega
    rw [List.getD_eq_default _ _ h1, List.getD_eq_default _ _ h2]

lemma consume8_eq (s : ByteStream) : consume8 s = (nextByte s 0, advance s 1) := by
  simp only [consume8]
  rw [readBytes_snd]
  congr 1
  rw [readBytes_fst]
  cases hd : s.data.drop s.pos with
  | nil =>
    have hlen := List.drop_eq_nil_iff.mp hd
    unfold nextByte
    rw [List.getD_eq_default _ _ (by omega : s.data.length ≤ s.pos + 0)]
    simp [fromBytesLE]
  | cons a t =>
    have ha : s.data[s.pos]? = some a := by
      have h0 := List.getElem?_drop s.data s.pos 0
      rw [hd] at h0
      simpa using h0.symm
    simp [fromBytesLE, nextByte, List.getD_eq_getElem?_getD, ha]

lemma consume8_snd (s : ByteStream) : (consume8 s).2 = advance s 1 := by
  rw [consume8_eq]

/-! The varint decoder computes the documented accumulation policy. -/

lemma consume8_advance (s : ByteStream) (j : Nat) :
    consume8 (advance s j) = (nextByte s j, advance s (j + 1)) := by
  rw [consume8_eq, nextByte_advance, advance_advance]
  simp

lemma consume_var_eq_policy (s : ByteStream) :
    consume_var s = ((varPolicy s).1, advance s (varPolicy s).2) := by
  simp only [consume_var, varPolicy, consume8_eq]
  by_cases c0 : nextByte s 0 &&& 128 = 0
  · rw [if_pos c0, if_pos c0]
  · rw [if_neg c0, if_neg c0]
    rw [varLoop]
    rw [dif_pos (⟨c0, by omega⟩ : nextByte s 0 &&& 128 ≠ 0 ∧ (7 : Nat) < 32)]
    simp only [consume8_advance]
    norm_num
    by_cases c1 : nextByte s 1 &&& 128 = 0
    · rw [if_pos c1, varLoop,
        dif_neg (fun hh => hh.1 c1 :
          ¬(nextByte s 1 &&& 128 ≠ 0 ∧ (14 : Nat) < 32))]
    · rw [if_neg c1, varLoop]
      rw [dif_pos (⟨c1, by omega⟩ : nextByte s 1 &&& 128 ≠ 0 ∧ (14 : Nat) < 32)]
      simp only [consume8_advance]
      norm_num
      by_cases c2 : nextByte s 2 &&& 128 = 0
      · rw [if_pos c2, varLoop,
          dif_neg (fun hh => hh.1 c2 :
            ¬(nextByte s 2 &&& 128 ≠ 0 ∧ (21 : Nat) < 32))]
      · rw [if_neg c2, varLoop]
        rw [dif_pos (⟨c2, by omega⟩ : nextByte s 2 &&& 128 ≠ 0 ∧ (21 : Nat) < 32)]
        simp only [consume8_advance]
        norm_num
        by_cases c3 : nextByte s 3 &&& 128 = 0
        · rw [if_pos c3, varLoop,
            dif_neg (fun hh => hh.1 c3 :
              ¬(nextByte s 3 &&& 128 ≠ 0 ∧ (28 : Nat) < 32))]
        · rw [if_neg c3, varLoop]
          rw [dif_pos (⟨c3, by omega⟩ : nextByte s 3 &&& 128 ≠ 0 ∧ (28 : Nat) < 32)]
          simp only [consume8_advance]
          norm_num
          rw [varLoop,
            dif_neg (fun hh => by omega :
              ¬(nextByte s 4 &&& 128 ≠ 0 ∧ (35 : Nat) < 32))]

/-! Monotone evolution of the cursor: every primitive keeps the buffer,
never moves backwards, and never moves past the end once inside it. -/

/-- Relating a stream to a later one produced from it by reads: same
buffer, position not decreased and not moved past the end. -/
def SOk (s t : ByteStream) : Prop :=
  t.data = s.data ∧ s.pos ≤ t.pos ∧ t.pos ≤ max s.pos s.data.length

lemma sok_rfl (s : ByteStream) : SOk s s := ⟨rfl, le_rfl, by omega⟩

lemma sok_trans {s t u : ByteStream} (h1 : SOk s t) (h2 : SOk t u) : SOk s u := by
  obtain ⟨d1, p1, q1⟩ := h1
  obtain ⟨d2, p2, q2⟩ := h2
  refine ⟨d2.trans d1, p1.trans p2, ?_⟩
  rw [d1] at q2
  omega

lemma sok_advance (s : ByteStream) (k : Nat) : SOk s (advance s k) :=
  ⟨rfl, (advance_pos_le s k).1, (advance_pos_le s k).2⟩

lemma sok_consume8 (s : ByteStream) : SOk s (consume8 s).2 := by
  rw [consume8_snd]
  exact sok_advance s 1

lemma sok_readBytes (s : ByteStream) (n : Nat) : SOk s (readBytes s n).2 := by
  rw [readBytes_snd]
  exact sok_advance s n

lemma consume_id_snd (s : ByteStream) : (consume_id s).2 = advance s 8 := by
  simp only [consume_id]
  exact readBytes_snd s 8

lemma sok_consume_id (s : ByteStream) : SOk s (consume_id s).2 := by
  rw [consume_id_snd]
  exact sok_advance s 8

lemma consume_var_snd (s : ByteStream) :
    (consume_var s).2 = advance s (varPolicy s).2 := by
  rw [consume_var_eq_policy]

lemma sok_consume_var (s : ByteStream) : SOk s (consume_var s).2 := by
  rw [consume_var_snd]
  exact sok_advance s _

lemma varPolicy_cnt (s : ByteStream) :
    1 ≤ (varPolicy s).2 ∧ (varPolicy s).2 ≤ 5 := by
  unfold varPolicy
  split_ifs <;> simp

lemma consume_var_progress (s : ByteStream) (h : s.pos < s.data.length) :
    s.pos < (consume_var s).2.pos := by
  rw [consume_var_snd]
  have := varPolicy_cnt s
  unfold advance
  dsimp only
  omega

lemma consume_string_ok {tbl : Option StringTable} {s : ByteStream}
    {q : List Nat × ByteStream} (h : consume_string tbl s = .ok q) :
    q.2 = (consume_var s).2 := by
  simp only [consume_string] at h
  cases tbl with
  | none => exact (Except.noConfusion h)
  | some t =>
    dsimp only at h
    cases hl : lookupString t (consume_var s).1 with
    | error e => rw [hl] at h; exact (Except.noConfusion h)
    | ok v =>
      rw [hl] at h
      dsimp only at h
      cases h
      rfl

lemma sok_consume_string {tbl : Option StringTable} {s : ByteStream}
    {q : List Nat × ByteStream} (h : consume_string tbl s = .ok q) : SOk s q.2 := by
  rw [consume_string_ok h]
  exact sok_consume_var s

lemma sok_read_location {tbl : Option StringTable} {s : ByteStream}
    {q : Location × ByteStream} (h : read_location tbl s = .ok q) : SOk s q.2 := by
  simp only [read_location] at h
  cases hc : consume_string tbl s with
  | error e => rw [hc] at h; exact (Except.noConfusion h)
  | ok q0 =>
    rw [hc] at h
    dsimp only at h
    cases h
    exact sok_trans (sok_consume_string hc)
      (sok_trans (sok_consume_var _)
        (sok_trans (sok_consume_var _)
          (sok_trans (sok_consume_var _) (sok_consume_var _))))

lemma sok_readIncludeHeaders {tbl : Option StringTable} :
    ∀ {n : Nat} {s : ByteStream} {q : List IncludeHeader × ByteStream},
      readIncludeHeaders tbl n s = .ok q → SOk s q.2 := by
  intro n
  induction n with
  | zero =>
    intro s q h
    simp only [readIncludeHeaders] at h
    cases h
    exact sok_rfl s
  | succ n ih =>
    intro s q h
    simp only [readIncludeHeaders] at h
    cases hc : consume_string tbl s with
    | error e => rw [hc] at h; exact (Except.noConfusion h)
    | ok q0 =>
      rw [hc] at h
      dsimp only at h
      cases hr : readIncludeHeaders tbl n (consume_var q0.2).2 with
      | error e => rw [hr] at h; exact (Except.noConfusion h)
      | ok q1 =>
        rw [hr] at h
        dsimp only at h
        cases h
        dsimp only
        exact sok_trans (sok_consume_string hc)
          (sok_trans (sok_consume_var _) (ih hr))

lemma sok_readStringList {tbl : Option StringTable} :
    ∀ {n : Nat} {s : ByteStream} {q : List (List Nat) × ByteStream},
      readStringList tbl n s = .ok q → SOk s q.2 := by
  intro n
  induction n with
  | zero =>
    intro s q h
    simp only [readStringList] at h
    cases h
    exact sok_rfl s
  | succ n ih =>
    intro s q h
    simp only [readStringList] at h
    cases hc : consume_string tbl s with
    | error e => rw [hc] at h; exact (Except.noConfusion h)
    | ok q0 =>
      rw [hc] at h
      dsimp only at h
      cases hr : readStringList tbl n q0.2 with
      | error e => rw [hr] at h; exact (Except.noConfusion h)
      | ok q1 =>
        rw [hr] at h
        dsimp only at h
        cases h
        dsimp only
        exact sok_trans (sok_consume_string hc) (ih hr)

lemma sok_readReferences {tbl : Option StringTable} :
    ∀ {n : Nat} {s : ByteStream} {q : List Reference × ByteStream},
      readReferences tbl n s = .ok q → SOk s q.2 := by
  intro n
  induction n with
  | zero =>
    intro s q h
    simp only [readReferences] at h
    cases h
    exact sok_rfl s
  | succ n ih =>
    intro s q h
    simp only [readReferences] at h
    cases hc : read_location tbl (consume8 s).2 with
    | error e => rw [hc] at h; exact (Except.noConfusion h)
    | ok q0 =>
      rw [hc] at h
      dsimp only at h
      cases hr : readReferences tbl n (consume_id q0.2).2 with
      | error e => rw [hr] at h; exact (Except.noConfusion h)
      | ok q1 =>
        rw [hr] at h
        dsimp only at h
        cases h
        dsimp only
        exact sok_trans (sok_consume8 _)
          (sok_trans (sok_read_location hc)
            (sok_trans (sok_consume_id _) (ih hr)))

lemma sok_read_symbol {tbl : Option StringTable} {s : ByteStream}
    {q : Symbol × ByteStream} (h : read_symbol tbl s = .ok q) :
    SOk (advance s 8) q.2 := by
  simp only [read_symbol] at h
  by_cases hk : validSymbolKind (consume8 (consume_id s).2).1 = false
  · rw [if_pos hk] at h; exact (Except.noConfusion h)
  · rw [if_neg hk] at h
    by_cases hl : validSymbolLanguage (consume8 (consume8 (consume_id s).2).2).1 = false
    · rw [if_pos hl] at h; exact (Except.noConfusion h)
    · rw [if_neg hl] at h
      cases h1 : consume_string tbl (consume8 (consume8 (consume_id s).2).2).2 with
      | error e => rw [h1] at h; exact (Except.noConfusion h)
      | ok qname =>
      rw [h1] at h; dsimp only at h
      cases h2 : consume_string tbl qname.2 with
      | error e => rw [h2] at h; exact (Except.noConfusion h)
      | ok qscope =>
      rw [h2] at h; dsimp only at h
      cases h3 : consume_string tbl qscope.2 with
      | error e => rw [h3] at h; exact (Except.noConfusion h)
      | ok qtmpl =>
      rw [h3] at h; dsimp only at h
      cases h4 : read_location tbl qtmpl.2 with
      | error e => rw [h4] at h; exact (Except.noConfusion h)
      | ok qdef =>
      rw [h4] at h; dsimp only at h
      cases h5 : read_location tbl qdef.2 with
      | error e => rw [h5] at h; exact (Except.noConfusion h)
      | ok qdecl =>
      rw [h5] at h; dsimp only at h
      cases h6 : consume_string tbl (consume8 (consume_var qdecl.2).2).2 with
      | error e => rw [h6] at h; exact (Except.noConfusion h)
      | ok qsig =>
      rw [h6] at h; dsimp only at h
      cases h7 : consume_string tbl qsig.2 with
      | error e => rw [h7] at h; exact (Except.noConfusion h)
      | ok qsnip =>
      rw [h7] at h; dsimp only at h
      cases h8 : consume_string tbl qsnip.2 with
      | error e => rw [h8] at h; exact (Except.noConfusion h)
      | ok qdoc =>
      rw [h8] at h; dsimp only at h
      cases h9 : consume_string tbl qdoc.2 with
      | error e => rw [h9] at h; exact (Except.noConfusion h)
      | ok qret =>
      rw [h9] at h; dsimp only at h
      cases h10 : consume_string tbl qret.2 with
      | error e => rw [h10] at h; exact (Except.noConfusion h)
      | ok qtype =>
      rw [h10] at h; dsimp only at h
      cases h11 : readIncludeHeaders tbl (consume_var qtype.2).1 (consume_var qtype.2).2 with
      | error e => rw [h11] at h; exact (Except.noConfusion h)
      | ok qhdrs =>
      rw [h11] at h; dsimp only at h
      cases h
      dsimp only
      have l1 : SOk (advance s 8) (consume8 (consume_id s).2).2 := by
        rw [← consume_id_snd s]
        exact sok_consume8 _
      exact sok_trans l1
        (sok_trans (sok_consume8 _)
        (sok_trans (sok_consume_string h1)
        (sok_trans (sok_consume_string h2)
        (sok_trans (sok_consume_string h3)
        (sok_trans (sok_read_location h4)
        (sok_trans (sok_read_location h5)
        (sok_trans (sok_consume_var _)
        (sok_trans (sok_consume8 _)
        (sok_trans (sok_consume_string h6)
        (sok_trans (sok_consume_string h7)
        (sok_trans (sok_consume_string h8)
        (sok_trans (sok_consume_string h9)
        (sok_trans (sok_consume_string h10)
        (sok_trans (sok_consume_var _) (sok_readIncludeHeaders h11)))))))))))))))

lemma sok_refsStep {tbl : Option StringTable} {s : ByteStream}
    {p : RefRecord × ByteStream} (h : refsStep tbl s = .ok p) :
    SOk (advance s 8) p.2 := by
  simp only [refsStep] at h
  cases hr : readReferences tbl (consume_var (consume_id s).2).1
      (consume_var (consume_id s).2).2 with
  | error e => rw [hr] at h; exact (Except.noConfusion h)
  | ok q =>
    rw [hr] at h
    dsimp only at h
    cases h
    dsimp only
    have l1 : SOk (advance s 8) (consume_var (consume_id s).2).2 := by
      rw [← consume_id_snd s]
      exact sok_consume_var _
    exact sok_trans l1 (sok_readReferences hr)

lemma sok_srcsStep {tbl : Option StringTable} {s : ByteStream}
    {p : SrcRecord × ByteStream} (h : srcsStep tbl s = .ok p) :
    SOk (advance s 1) p.2 := by
  simp only [srcsStep] at h
  cases hc : consume_string tbl (consume8 s).2 with
  | error e => rw [hc] at h; exact (Except.noConfusion h)
  | ok quri =>
    rw [hc] at h
    dsimp only at h
    cases hr : readStringList tbl (consume_var (readBytes quri.2 8).2).1
        (consume_var (readBytes quri.2 8).2).2 with
    | error e => rw [hr] at h; exact (Except.noConfusion h)
    | ok q =>
      rw [hr] at h
      dsimp only at h
      cases h
      dsimp only
      have l1 : SOk (advance s 1) quri.2 := by
        have := sok_consume_string hc
        rw [consume8_snd] at this
        exact this
      exact sok_trans l1
        (sok_trans (sok_readBytes _ _)
          (sok_trans (sok_consume_var _) (sok_readStringList hr)))

lemma sok_cmdlStep {tbl : Option StringTable} {s : ByteStream}
    {p : CmdRecord × ByteStream} (h : cmdlStep tbl s = .ok p) :
    SOk (consume_var s).2 p.2 := by
  simp only [cmdlStep] at h
  cases hc : consume_string tbl s with
  | error e => rw [hc] at h; exact (Except.noConfusion h)
  | ok qdir =>
    rw [hc] at h
    dsimp only at h
    cases hr : readStringList tbl (consume_var qdir.2).1 (consume_var qdir.2).2 with
    | error e => rw [hr] at h; exact (Except.noConfusion h)
    | ok q =>
      rw [hr] at h
      dsimp only at h
      cases h
      dsimp only
      have l1 : SOk (consume_var s).2 qdir.2 := by
        rw [consume_string_ok hc]
        exact sok_rfl _
      exact sok_trans l1
        (sok_trans (sok_consume_var _) (sok_readStringList hr))

/-! Progress: while bytes remain, a successful record decode strictly
advances the cursor and lands at or before the end of the buffer. -/

lemma progress_of_sok {s t : ByteStream} {k : Nat} (hk : 1 ≤ k)
    (h : s.pos < s.data.length) (hs : SOk (advance s k) t) :
    t.data = s.data ∧ s.pos < t.pos ∧ t.pos ≤ s.data.length := by
  obtain ⟨hd, hp, hq⟩ := hs
  unfold advance at hd hp hq
  dsimp only at hd hp hq
  exact ⟨hd, by omega, by omega⟩

lemma read_symbol_progress (tbl : Option StringTable) :
    ∀ s : ByteStream, s.pos < s.data.length →
      ∀ p, read_symbol tbl s = .ok p →
        p.2.data = s.data ∧ s.pos < p.2.pos ∧ p.2.pos ≤ s.data.length :=
  fun _ h _ hok => progress_of_sok (by omega) h (sok_read_symbol hok)

lemma refsStep_progress (tbl : Option StringTable) :
    ∀ s : ByteStream, s.pos < s.data.length →
      ∀ p, refsStep tbl s = .ok p →
        p.2.data = s.data ∧ s.pos < p.2.pos ∧ p.2.pos ≤ s.data.length :=
  fun _ h _ hok => progress_of_sok (by omega) h (sok_refsStep hok)

lemma srcsStep_progress (tbl : Option StringTable) :
    ∀ s : ByteStream, s.pos < s.data.length →
      ∀ p, srcsStep tbl s = .ok p →
        p.2.data = s.data ∧ s.pos < p.2.pos ∧ p.2.pos ≤ s.data.length :=
  fun _ h _ hok => progress_of_sok (by omega) h (sok_srcsStep hok)

lemma cmdlStep_progress (tbl : Option StringTable) :
    ∀ s : ByteStream, s.pos < s.data.length →
      ∀ p, cmdlStep tbl s = .ok p →
        p.2.data = s.data ∧ s.pos < p.2.pos ∧ p.2.pos ≤ s.data.length := by
  intro s h p hok
  have hs := sok_cmdlStep hok
  rw [consume_var_snd] at hs
  exact progress_of_sok (varPolicy_cnt s).1 h hs

lemma relaStep_progress :
    ∀ s : ByteStream, s.pos < s.data.length →
      ∀ p, relaStep s = .ok p →
        p.2.data = s.data ∧ s.pos < p.2.pos ∧ p.2.pos ≤ s.data.length := by
  intro s h p hok
  simp only [relaStep] at hok
  cases hok
  dsimp only
  rw [consume8_snd, consume8_snd, consume8_snd, advance_advance, advance_advance]
  unfold advance
  dsimp only
  exact ⟨rfl, by omega, by omega⟩

/-- The record loop lands exactly on the end of the buffer whenever it
returns successfully, provided the step decoder makes progress. -/
lemma recordLoopF_ok_pos {α : Type}
    (step : ByteStream → Except ParseError (α × ByteStream))
    (hstep : ∀ s : ByteStream, s.pos < s.data.length →
      ∀ p, step s = .ok p →
        p.2.data = s.data ∧ s.pos < p.2.pos ∧ p.2.pos ≤ s.data.length) :
    ∀ (fuel : Nat) (s : ByteStream), s.data.length ≤ s.pos + fuel →
      s.pos ≤ s.data.length →
      ∀ r, recordLoopF step fuel s = .ok r →
        r.2.pos = s.data.length ∧ r.2.data = s.data := by
  intro fuel
  induction fuel with
  | zero =>
    intro s hf hp r h
    simp only [recordLoopF] at h
    cases h
    dsimp only
    exact ⟨by omega, rfl⟩
  | succ n ih =>
    intro s hf hp r h
    simp only [recordLoopF] at h
    by_cases hlt : s.pos < s.data.length
    · rw [if_pos hlt] at h
      cases hs : step s with
      | error e => rw [hs] at h; exact (Except.noConfusion h)
      | ok p =>
        rw [hs] at h
        dsimp only at h
        cases hr : recordLoopF step n p.2 with
        | error e => rw [hr] at h; exact (Except.noConfusion h)
        | ok r2 =>
          rw [hr] at h
          dsimp only at h
          cases h
          dsimp only
          obtain ⟨hd, hlt2, hle⟩ := hstep s hlt p hs
          have hrec := ih p.2 (by rw [hd]; omega) (by rw [hd]; omega) r2 hr
          exact ⟨by rw [hrec.1, hd], by rw [hrec.2, hd]⟩
    · rw [if_neg hlt] at h
      cases h
      dsimp only
      exact ⟨by omega, rfl⟩

/-! The chunk dispatcher. -/

lemma parse_data_ok_tag {dc : List Nat → Option (List Nat)} {sess : Session}
    {tag : String} {data : List Nat} {r : ChunkValue × Session}
    (h : parse_data dc sess tag data = .ok r) : tag ∈ recognizedTags := by
  unfold parse_data at h
  by_cases h1 : tag = metaTag
  · simp [recognizedTags, h1]
  rw [if_neg h1] at h
  by_cases h2 : tag = striTag
  · simp [recognizedTags, h2]
  rw [if_neg h2] at h
  by_cases h3 : tag = symbTag
  · simp [recognizedTags, h3]
  rw [if_neg h3] at h
  by_cases h4 : tag = refsTag
  · simp [recognizedTags, h4]
  rw [if_neg h4] at h
  by_cases h5 : tag = relaTag
  · simp [recognizedTags, h5]
  rw [if_neg h5] at h
  by_cases h6 : tag = srcsTag
  · simp [recognizedTags, h6]
  rw [if_neg h6] at h
  by_cases h7 : tag = cmdlTag
  · simp [recognizedTags, h7]
  rw [if_neg h7] at h
  exact (Except.noConfusion h)

lemma parse_data_unknown (dc : List Nat → Option (List Nat)) (sess : Session)
    (tag : String) (data : List Nat) (h : tag ∉ recognizedTags) :
    parse_data dc sess tag data = .error (.UnknownChunkTag tag) := by
  simp only [recognizedTags, List.mem_cons, List.not_mem_nil, or_false, not_or] at h
  obtain ⟨n1, n2, n3, n4, n5, n6, n7⟩ := h
  unfold parse_data
  rw [if_neg n1, if_neg n2, if_neg n3, if_neg n4, if_neg n5, if_neg n6, if_neg n7]

lemma insertReplace_mem {acc : List (String × ChunkValue)} {tag : String}
    {v : ChunkValue} {p : String × ChunkValue} (h : p ∈ insertReplace acc tag v) :
    p ∈ acc ∨ p.1 = tag := by
  induction acc with
  | nil =>
    simp only [insertReplace, List.mem_singleton] at h
    right
    rw [h]
  | cons a rest ih =>
    obtain ⟨t, w⟩ := a
    simp only [insertReplace] at h
    by_cases ht : t = tag
    · rw [if_pos ht] at h
      rcases List.mem_cons.mp h with h1 | h1
      · right
        rw [h1]
        exact ht
      · left
        exact List.mem_cons_of_mem _ h1
    · rw [if_neg ht] at h
      rcases List.mem_cons.mp h with h1 | h1
      · left
        rw [h1]
        exact List.mem_cons_self _ _
      · rcases ih h1 with h2 | h2
        · left
          exact List.mem_cons_of_mem _ h2
        · right
          exact h2

lemma lookupTag_insertReplace (acc : List (String × ChunkValue)) (tag t : String)
    (v : ChunkValue) :
    lookupTag (insertReplace acc tag v) t =
      if tag = t then some v else lookupTag acc t := by
  induction acc with
  | nil => simp [insertReplace, lookupTag]
  | cons a rest ih =>
    obtain ⟨u, w⟩ := a
    simp only [insertReplace]
    by_cases hu : u = tag
    · subst hu
      simp only [lookupTag]
      split_ifs <;> rfl
    · rw [if_neg hu]
      simp only [lookupTag, ih]
      split_ifs with h1 h2 <;>
        first
          | rfl
          | exact absurd (h1.trans h2.symm) hu

lemma riffLoopF_keys (dc : List Nat → Option (List Nat)) :
    ∀ (fuel riff_size : Nat) (sess : Session) (acc : List (String × ChunkValue))
      (s : ByteStream) (m : List (String × ChunkValue)),
      (∀ p ∈ acc, p.1 ∈ recognizedTags) →
      riffLoopF dc fuel riff_size sess acc s = .ok m →
      ∀ p ∈ m, p.1 ∈ recognizedTags := by
  intro fuel
  induction fuel with
  | zero =>
    intro rs sess acc s m hacc h
    simp only [riffLoopF] at h
    cases h
    exact hacc
  | succ n ih =>
    intro rs sess acc s m hacc h
    simp only [riffLoopF] at h
    by_cases hlt : s.pos < rs
    · rw [if_pos hlt] at h
      cases hp : parse_data dc sess (bytesToString (parse_chunk s).1.1)
          (readBytes (parse_chunk s).2 (parse_chunk s).1.2).1 with
      | error e => rw [hp] at h; exact (Except.noConfusion h)
      | ok r =>
        rw [hp] at h
        dsimp only at h
        refine ih rs r.2 _ _ m ?_ h
        intro p hmem
        rcases insertReplace_mem hmem with h1 | h1
        · exact hacc p h1
        · rw [h1]
          exact parse_data_ok_tag hp
    · rw [if_neg hlt] at h
      cases h
      exact hacc

/-! Encoded containers: the byte-level loop computes the chunk-level fold. -/

lemma fromBytesLE_u32le (n : Nat) (h : n < 4294967296) :
    fromBytesLE (u32le n) = n := by
  unfold fromBytesLE u32le
  simp only [List.foldr]
  omega

lemma u32le_length (n : Nat) : (u32le n).length = 4 := rfl

lemma stringToBytes_length (t : String) : (stringToBytes t).length = t.data.length := by
  unfold stringToBytes
  exact List.length_map _ _

lemma bytesToString_stringToBytes (t : String) : bytesToString (stringToBytes t) = t := by
  unfold bytesToString stringToBytes
  rw [List.map_map]
  rw [show (Char.ofNat ∘ Char.toNat) = fun c => c from funext fun c => Char.ofNat_toNat c]
  rw [show (fun c : Char => c) = id from rfl, List.map_id]

lemma encodeChunk_length {c : String × List Nat} (h : GoodTag c.1) :
    (encodeChunk c).length = 8 + c.2.length := by
  unfold encodeChunk
  unfold GoodTag at h
  rw [List.length_append, List.length_append, stringToBytes_length, h, u32le_length]

lemma readBytes_at (pre mid rest : List Nat) (n : Nat) (hm : mid.length = n) :
    readBytes ⟨pre ++ (mid ++ rest), pre.length⟩ n =
      (mid, ⟨pre ++ (mid ++ rest), pre.length + n⟩) := by
  have h1 : (readBytes ⟨pre ++ (mid ++ rest), pre.length⟩ n).1 = mid := by
    rw [readBytes_fst]
    dsimp only
    rw [List.drop_left, ← hm, List.take_left]
  have h2 : (readBytes ⟨pre ++ (mid ++ rest), pre.length⟩ n).2 =
      ⟨pre ++ (mid ++ rest), pre.length + n⟩ := by
    rw [readBytes_snd]
    unfold advance
    dsimp only
    rw [List.length_append, List.length_append]
    congr 1
    omega
  rw [Prod.ext_iff]
  exact ⟨h1, h2⟩

lemma encodeChunks_len_ge (chunks : List (String × List Nat)) :
    chunks.length ≤ (encodeChunks chunks).length := by
  induction chunks with
  | nil => simp [encodeChunks]
  | cons c cs ih =>
    simp only [encodeChunks, List.length_append, List.length_cons]
    have : 4 ≤ (encodeChunk c).length := by
      unfold encodeChunk
      rw [List.length_append, List.length_append, u32le_length]
      omega
    omega

lemma riffLoopF_encode (dc : List Nat → Option (List Nat)) :
    ∀ (chunks : List (String × List Nat)) (fuel : Nat) (sess : Session)
      (acc : List (String × ChunkValue)) (pre : List Nat),
      (∀ c ∈ chunks, GoodTag c.1 ∧ c.2.length < 4294967296) →
      chunks.length + 1 ≤ fuel →
      riffLoopF dc fuel (pre.length + (encodeChunks chunks).length) sess acc
        ⟨pre ++ encodeChunks chunks, pre.length⟩ =
      foldChunks dc sess acc chunks := by
  intro chunks
  induction chunks with
  | nil =>
    intro fuel sess acc pre hgood hfuel
    obtain ⟨f, rfl⟩ : ∃ f, fuel = f + 1 := ⟨fuel - 1, by omega⟩
    simp [riffLoopF, encodeChunks, foldChunks]
  | cons c cs ih =>
    intro fuel sess acc pre hgood hfuel
    obtain ⟨tag, payload⟩ := c
    obtain ⟨f, rfl⟩ : ∃ f, fuel = f + 1 := ⟨fuel - 1, by omega⟩
    have hgc := hgood (tag, payload) (List.mem_cons_self _ _)
    dsimp only at hgc
    simp only [List.length_cons] at hfuel
    have htag : (stringToBytes tag).length = 4 := by
      rw [stringToBytes_length]
      exact hgc.1
    have hsplit : encodeChunks ((tag, payload) :: cs) =
        stringToBytes tag ++ (u32le payload.length ++
          (payload ++ encodeChunks cs)) := by
      simp [encodeChunks, encodeChunk, List.append_assoc]
    have hencl : (encodeChunks ((tag, payload) :: cs)).length =
        8 + payload.length + (encodeChunks cs).length := by
      rw [hsplit]
      simp only [List.length_append, htag, u32le_length]
      omega
    rw [hsplit]
    set D := pre ++ (stringToBytes tag ++ (u32le payload.length ++
      (payload ++ encodeChunks cs))) with hD
    have hp4 : (pre ++ stringToBytes tag).length = pre.length + 4 := by
      rw [List.length_append, htag]
    have hp8 : ((pre ++ stringToBytes tag) ++ u32le payload.length).length =
        pre.length + 8 := by
      rw [List.length_append, hp4, u32le_length]
    have hr1 : readBytes ⟨D, pre.length⟩ 4 = (stringToBytes tag, ⟨D, pre.length + 4⟩) :=
      readBytes_at pre (stringToBytes tag) _ 4 htag
    have hr2 : readBytes ⟨D, pre.length + 4⟩ 4 =
        (u32le payload.length, ⟨D, pre.length + 8⟩) := by
      have h := readBytes_at (pre ++ stringToBytes tag) (u32le payload.length)
        (payload ++ encodeChunks cs) 4 (u32le_length payload.length)
      rw [List.append_assoc, hp4] at h
      rw [h]
    have hr3 : readBytes ⟨D, pre.length + 8⟩ payload.length =
        (payload, ⟨D, pre.length + 8 + payload.length⟩) := by
      have h := readBytes_at ((pre ++ stringToBytes tag) ++ u32le payload.length)
        payload (encodeChunks cs) payload.length rfl
      rw [List.append_assoc, List.append_assoc, hp8] at h
      exact h
    have hpc : parse_chunk ⟨D, pre.length⟩ =
        ((stringToBytes tag, payload.length), ⟨D, pre.length + 8⟩) := by
      simp only [parse_chunk, hr1]
      rw [hr2]
      rw [fromBytesLE_u32le _ hgc.2]
    simp only [riffLoopF]
    rw [if_pos (show (⟨D, pre.length⟩ : ByteStream).pos <
        pre.length + (stringToBytes tag ++ (u32le payload.length ++
          (payload ++ encodeChunks cs))).length by
      dsimp only
      simp only [List.length_append, htag, u32le_length]
      omega)]
    rw [hpc]
    dsimp only
    rw [hr3]
    dsimp only
    rw [bytesToString_stringToBytes]
    simp only [foldChunks]
    cases hp : parse_data dc sess tag payload with
    | error e => rfl
    | ok r =>
      dsimp only
      have hpre2 : D = (pre ++ encodeChunk (tag, payload)) ++ encodeChunks cs := by
        rw [hD]
        simp [encodeChunk, List.append_assoc]
      have hlen2 : (pre ++ encodeChunk (tag, payload)).length =
          pre.length + 8 + payload.length := by
        rw [List.length_append, encodeChunk_length hgc.1]
        dsimp only
        omega
      have hIH := ih f r.2 (insertReplace acc tag r.1)
        (pre ++ encodeChunk (tag, payload))
        (fun c hc => hgood c (List.mem_cons_of_mem _ hc)) (by omega)
      rw [← hpre2, hlen2] at hIH
      have hsize : pre.length + (stringToBytes tag ++ (u32le payload.length ++
          (payload ++ encodeChunks cs))).length =
          pre.length + 8 + payload.length + (encodeChunks cs).length := by
        simp only [List.length_append, htag, u32le_length]
        omega
      rw [hsize]
      exact hIH

lemma parse_riff_file_encode (dc : List Nat → Option (List Nat))
    (chunks : List (String × List Nat))
    (hgood : ∀ c ∈ chunks, GoodTag c.1 ∧ c.2.length < 4294967296)
    (htot : 12 + (encodeChunks chunks).length < 4294967296) :
    parse_riff_file dc (encodeFile chunks) = foldChunks dc ⟨none⟩ [] chunks := by
  have hT1 : (stringToBytes riffTag).length = 4 := rfl
  have hT2 : (stringToBytes fmtTag).length = 4 := rfl
  have hassoc : encodeFile chunks =
      stringToBytes riffTag ++ (u32le (12 + (encodeChunks chunks).length) ++
        (stringToBytes fmtTag ++ encodeChunks chunks)) := by
    unfold encodeFile
    simp [List.append_assoc]
  rw [hassoc]
  set B := encodeChunks chunks with hB
  set F := stringToBytes riffTag ++ (u32le (12 + B.length) ++
    (stringToBytes fmtTag ++ B)) with hF
  have hFlen : F.length = 12 + B.length := by
    rw [hF]
    simp only [List.length_append, hT1, hT2, u32le_length]
    omega
  have hr1 : readBytes ⟨F, 0⟩ 4 = (stringToBytes riffTag, ⟨F, 4⟩) := by
    have h := readBytes_at [] (stringToBytes riffTag)
      (u32le (12 + B.length) ++ (stringToBytes fmtTag ++ B)) 4 hT1
    simpa using h
  have hr2 : readBytes ⟨F, 4⟩ 4 = (u32le (12 + B.length), ⟨F, 8⟩) := by
    have h := readBytes_at (stringToBytes riffTag) (u32le (12 + B.length))
      (stringToBytes fmtTag ++ B) 4 (u32le_length _)
    rw [hT1] at h
    exact h
  have hr3 : readBytes ⟨F, 8⟩ 4 = (stringToBytes fmtTag, ⟨F, 12⟩) := by
    have h := readBytes_at (stringToBytes riffTag ++ u32le (12 + B.length))
      (stringToBytes fmtTag) B 4 hT2
    rw [List.append_assoc] at h
    rw [show (stringToBytes riffTag ++ u32le (12 + B.length)).length = 8 by
      rw [List.length_append, hT1, u32le_length]] at h
    exact h
  simp only [parse_riff_file]
  rw [hr1]
  dsimp only
  rw [hr2]
  dsimp only
  rw [hr3]
  dsimp only
  rw [fromBytesLE_u32le _ htot]
  have hb := riffLoopF_encode dc chunks (B.length + 1) ⟨none⟩ []
    (stringToBytes riffTag ++ (u32le (12 + B.length) ++ stringToBytes fmtTag))
    hgood (by have := encodeChunks_len_ge chunks; rw [← hB] at this; omega)
  rw [show (stringToBytes riffTag ++ (u32le (12 + B.length) ++
      stringToBytes fmtTag)).length = 12 by
    simp only [List.length_append, hT1, hT2, u32le_length]] at hb
  rw [show stringToBytes riffTag ++ (u32le (12 + B.length) ++
      stringToBytes fmtTag) ++ encodeChunks chunks = F by
    rw [hF, hB]
    simp [List.append_assoc]] at hb
  rw [hFlen, Nat.add_sub_cancel_left]
  rw [← hB] at hb
  exact hb

lemma foldChunks_lookup (dc : List Nat → Option (List Nat)) :
    ∀ (chunks : List (String × List Nat)) (sess : Session)
      (acc m : List (String × ChunkValue)),
      foldChunks dc sess acc chunks = .ok m →
      ∀ tag : String,
        ((chunks.filter (fun c => c.1 = tag)) = [] →
          lookupTag m tag = lookupTag acc tag) ∧
        (∀ payload : List Nat,
          (chunks.filter (fun c => c.1 = tag)).getLast? = some (tag, payload) →
          ∃ (sess₀ sess₁ : Session) (v : ChunkValue),
            parse_data dc sess₀ tag payload = .ok (v, sess₁) ∧
            lookupTag m tag = some v) := by
  intro chunks
  induction chunks with
  | nil =>
    intro sess acc m h tag
    simp only [foldChunks] at h
    cases h
    constructor
    · intro _
      rfl
    · intro payload hpl
      simp at hpl
  | cons c cs ih =>
    intro sess acc m h tag
    simp only [foldChunks] at h
    cases hp : parse_data dc sess c.1 c.2 with
    | error e => rw [hp] at h; exact (Except.noConfusion h)
    | ok r =>
      rw [hp] at h
      dsimp only at h
      have IH := ih r.2 (insertReplace acc c.1 r.1) m h tag
      by_cases hct : c.1 = tag
      · have hfil : (c :: cs).filter (fun x => x.1 = tag) =
            c :: cs.filter (fun x => x.1 = tag) := by
          rw [List.filter_cons_of_pos (by simp [hct])]
        constructor
        · intro hnil
          rw [hfil] at hnil
          exact (List.noConfusion hnil)
        · intro payload hpl
          rw [hfil] at hpl
          cases hcs : cs.filter (fun x => x.1 = tag) with
          | nil =>
            rw [hcs] at hpl
            simp only [List.getLast?_singleton, Option.some.injEq] at hpl
            refine ⟨sess, r.2, r.1, ?_, ?_⟩
            · have hc2 : c.2 = payload := congrArg Prod.snd hpl
              rw [← hct, ← hc2]
              exact hp
            · rw [IH.1 hcs, lookupTag_insertReplace, if_pos hct]
          | cons d ds =>
            rw [hcs] at hpl
            rw [List.getLast?_cons_cons] at hpl
            exact IH.2 payload (by rw [hcs]; exact hpl)
      · have hfil : (c :: cs).filter (fun x => x.1 = tag) =
            cs.filter (fun x => x.1 = tag) := by
          rw [List.filter_cons_of_neg (by simp [hct])]
        constructor
        · intro hnil
          rw [hfil] at hnil
          rw [IH.1 hnil, lookupTag_insertReplace, if_neg hct]
        · intro payload hpl
          rw [hfil] at hpl
          exact IH.2 payload hpl

/-! Bit-level facts for the varint codec. -/

lemma and128_clear : ∀ x : Nat, x < 128 → x &&& 128 = 0 := by decide

lemma and128_set : ∀ x : Nat, x < 128 → (x + 128) &&& 128 = 128 := by decide

lemma and127_plus : ∀ x : Nat, x < 128 → (x + 128) &&& 127 = x := by decide

lemma and127_id : ∀ x : Nat, x < 128 → x &&& 127 = x := by decide

lemma lor_shift_add (k a b : Nat) (h : a < 2 ^ k) :
    a ||| (b <<< k) = a + b * 2 ^ k := by
  induction k generalizing a with
  | zero =>
    have ha : a = 0 := by omega
    subst ha
    simp [Nat.shiftLeft_eq]
  | succ k ih =>
    have hd : Nat.bit a.bodd a.div2 = a := Nat.bit_decomp a
    have hb : b <<< (k + 1) = Nat.bit false (b <<< k) := by
      simp [Nat.shiftLeft_succ, Nat.bit_val, Nat.mul_comm]
    have hdiv : a.div2 < 2 ^ k := by
      rw [Nat.div2_val]
      omega
    calc a ||| (b <<< (k + 1))
        = Nat.bit a.bodd a.div2 ||| Nat.bit false (b <<< k) := by rw [hd, hb]
      _ = Nat.bit (a.bodd || false) (a.div2 ||| b <<< k) := Nat.lor_bit _ _ _ _
      _ = Nat.bit a.bodd (a.div2 + b * 2 ^ k) := by rw [Bool.or_false, ih _ hdiv]
      _ = a + b * 2 ^ (k + 1) := by
          rw [Nat.bit_val]
          have hv := Nat.bit_decomp a
          rw [Nat.bit_val] at hv
          rw [Nat.pow_succ, ← Nat.mul_assoc]
          omega

lemma encode_var_lt {n : Nat} (h : n < 128) : encode_var n = [n] := by
  rw [encode_var, dif_pos h]

lemma encode_var_ge {n : Nat} (h : ¬ n < 128) :
    encode_var n = (n % 128 + 128) :: encode_var (n / 128) := by
  rw [encode_var, dif_neg h]

/-- Round trip: decoding an encoded value below 2 to the 35 recovers it and
consumes exactly the encoded bytes. -/
lemma consume_var_encode (n : Nat) (h : n < 34359738368) :
    consume_var ⟨encode_var n, 0⟩ = (n, ⟨encode_var n, (encode_var n).length⟩) := by
  by_cases h1 : n < 128
  · rw [encode_var_lt h1, consume_var_eq_policy]
    have hv : varPolicy ⟨[n], 0⟩ = (n, 1) := by
      unfold varPolicy
      rw [show nextByte ⟨[n], 0⟩ 0 = n from rfl]
      rw [if_pos (and128_clear n h1)]
    rw [hv]
    simp [advance]
  · have hm0 : n % 128 < 128 := Nat.mod_lt _ (by omega)
    by_cases h2 : n < 16384
    · have he : encode_var n = [n % 128 + 128, n / 128] := by
        rw [encode_var_ge h1, encode_var_lt (show n / 128 < 128 by omega)]
      rw [he, consume_var_eq_policy]
      have hd : n / 128 < 128 := by omega
      have hv : varPolicy ⟨[n % 128 + 128, n / 128], 0⟩ =
          ((n % 128) ||| ((n / 128) <<< 7), 2) := by
        unfold varPolicy
        rw [show nextByte ⟨[n % 128 + 128, n / 128], 0⟩ 0 = n % 128 + 128 from rfl]
        rw [show nextByte ⟨[n % 128 + 128, n / 128], 0⟩ 1 = n / 128 from rfl]
        rw [if_neg (by rw [and128_set _ hm0]; omega)]
        rw [if_pos (and128_clear _ hd)]
        rw [and127_plus _ hm0, and127_id _ hd]
      rw [hv]
      refine Prod.ext_iff.mpr ⟨?_, by simp [advance]⟩
      dsimp only
      rw [lor_shift_add 7 _ _ (by omega)]
      omega
    · have hm1 : n / 128 % 128 < 128 := Nat.mod_lt _ (by omega)
      by_cases h3 : n < 2097152
      · have he : encode_var n =
            [n % 128 + 128, n / 128 % 128 + 128, n / 128 / 128] := by
          rw [encode_var_ge h1, encode_var_ge (show ¬ n / 128 < 128 by omega),
            encode_var_lt (show n / 128 / 128 < 128 by omega)]
        rw [he, consume_var_eq_policy]
        have hd : n / 128 / 128 < 128 := by omega
        have hv : varPolicy ⟨[n % 128 + 128, n / 128 % 128 + 128, n / 128 / 128], 0⟩ =
            ((n % 128) ||| ((n / 128 % 128) <<< 7) ||| ((n / 128 / 128) <<< 14), 3) := by
          unfold varPolicy
          rw [show nextByte ⟨[n % 128 + 128, n / 128 % 128 + 128, n / 128 / 128], 0⟩ 0 =
            n % 128 + 128 from rfl]
          rw [show nextByte ⟨[n % 128 + 128, n / 128 % 128 + 128, n / 128 / 128], 0⟩ 1 =
            n / 128 % 128 + 128 from rfl]
          rw [show nextByte ⟨[n % 128 + 128, n / 128 % 128 + 128, n / 128 / 128], 0⟩ 2 =
            n / 128 / 128 from rfl]
          rw [if_neg (by rw [and128_set _ hm0]; omega)]
          rw [if_neg (by rw [and128_set _ hm1]; omega)]
          rw [if_pos (and128_clear _ hd)]
          rw [and127_plus _ hm0, and127_plus _ hm1, and127_id _ hd]
        rw [hv]
        refine Prod.ext_iff.mpr ⟨?_, by simp [advance]⟩
        dsimp only
        rw [lor_shift_add 7 _ _ (by omega), lor_shift_add 14 _ _ (by omega)]
        omega
      · have hm2 : n / 128 / 128 % 128 < 128 := Nat.mod_lt _ (by omega)
        by_cases h4 : n < 268435456
        · have he : encode_var n =
              [n % 128 + 128, n / 128 % 128 + 128, n / 128 / 128 % 128 + 128,
                n / 128 / 128 / 128] := by
            rw [encode_var_ge h1, encode_var_ge (show ¬ n / 128 < 128 by omega),
              encode_var_ge (show ¬ n / 128 / 128 < 128 by omega),
              encode_var_lt (show n / 128 / 128 / 128 < 128 by omega)]
          rw [he, consume_var_eq_policy]
          have hd : n / 128 / 128 / 128 < 128 := by omega
          have hv : varPolicy ⟨[n % 128 + 128, n / 128 % 128 + 128,
              n / 128 / 128 % 128 + 128, n / 128 / 128 / 128], 0⟩ =
              ((n % 128) ||| ((n / 128 % 128) <<< 7) |||
                ((n / 128 / 128 % 128) <<< 14) ||| ((n / 128 / 128 / 128) <<< 21), 4) := by
            unfold varPolicy
            rw [show nextByte ⟨[n % 128 + 128, n / 128 % 128 + 128,
              n / 128 / 128 % 128 + 128, n / 128 / 128 / 128], 0⟩ 0 =
              n % 128 + 128 from rfl]
            rw [show nextByte ⟨[n % 128 + 128, n / 128 % 128 + 128,
              n / 128 / 128 % 128 + 128, n / 128 / 128 / 128], 0⟩ 1 =
              n / 128 % 128 + 128 from rfl]
            rw [show nextByte ⟨[n % 128 + 128, n / 128 % 128 + 128,
              n / 128 / 128 % 128 + 128, n / 128 / 128 / 128], 0⟩ 2 =
              n / 128 / 128 % 128 + 128 from rfl]
            rw [show nextByte ⟨[n % 128 + 128, n / 128 % 128 + 128,
              n / 128 / 128 % 128 + 128, n / 128 / 128 / 128], 0⟩ 3 =
              n / 128 / 128 / 128 from rfl]
            rw [if_neg (by rw [and128_set _ hm0]; omega)]
            rw [if_neg (by rw [and128_set _ hm1]; omega)]
            rw [if_neg (by rw [and128_set _ hm2]; omega)]
            rw [if_pos (and128_clear _ hd)]
            rw [and127_plus _ hm0, and127_plus _ hm1, and127_plus _ hm2, and127_id _ hd]
          rw [hv]
          refine Prod.ext_iff.mpr ⟨?_, by simp [advance]⟩
          dsimp only
          rw [lor_shift_add 7 _ _ (by omega), lor_shift_add 14 _ _ (by omega),
            lor_shift_add 21 _ _ (by omega)]
          omega
        · have hm3 : n / 128 / 128 / 128 % 128 < 128 := Nat.mod_lt _ (by omega)
          have hd : n / 128 / 128 / 128 / 128 < 128 := by omega
          have he : encode_var n =
              [n % 128 + 128, n / 128 % 128 + 128, n / 128 / 128 % 128 + 128,
                n / 128 / 128 / 128 % 128 + 128, n / 128 / 128 / 128 / 128] := by
            rw [encode_var_ge h1, encode_var_ge (show ¬ n / 128 < 128 by omega),
              encode_var_ge (show ¬ n / 128 / 128 < 128 by omega),
              encode_var_ge (show ¬ n / 128 / 128 / 128 < 128 by omega),
              encode_var_lt hd]
          rw [he, consume_var_eq_policy]
          have hv : varPolicy ⟨[n % 128 + 128, n / 128 % 128 + 128,
              n / 128 / 128 % 128 + 128, n / 128 / 128 / 128 % 128 + 128,
              n / 128 / 128 / 128 / 128], 0⟩ =
              ((n % 128) ||| ((n / 128 % 128) <<< 7) |||
                ((n / 128 / 128 % 128) <<< 14) ||| ((n / 128 / 128 / 128 % 128) <<< 21) |||
                ((n / 128 / 128 / 128 / 128) <<< 28), 5) := by
            unfold varPolicy
            rw [show nextByte ⟨[n % 128 + 128, n / 128 % 128 + 128,
              n / 128 / 128 % 128 + 128, n / 128 / 128 / 128 % 128 + 128,
              n / 128 / 128 / 128 / 128], 0⟩ 0 = n % 128 + 128 from rfl]
            rw [show nextByte ⟨[n % 128 + 128, n / 128 % 128 + 128,
              n / 128 / 128 % 128 + 128, n / 128 / 128 / 128 % 128 + 128,
              n / 128 / 128 / 128 / 128], 0⟩ 1 = n / 128 % 128 + 128 from rfl]
            rw [show nextByte ⟨[n % 128 + 128, n / 128 % 128 + 128,
              n / 128 / 128 % 128 + 128, n / 128 / 128 / 128 % 128 + 128,
              n / 128 / 128 / 128 / 128], 0⟩ 2 = n / 128 / 128 % 128 + 128 from rfl]
            rw [show nextByte ⟨[n % 128 + 128, n / 128 % 128 + 128,
              n / 128 / 128 % 128 + 128, n / 128 / 128 / 128 % 128 + 128,
              n / 128 / 128 / 128 / 128], 0⟩ 3 = n / 128 / 128 / 128 % 128 + 128 from rfl]
            rw [show nextByte ⟨[n % 128 + 128, n / 128 % 128 + 128,
              n / 128 / 128 % 128 + 128, n / 128 / 128 / 128 % 128 + 128,
              n / 128 / 128 / 128 / 128], 0⟩ 4 = n / 128 / 128 / 128 / 128 from rfl]
            rw [if_neg (by rw [and128_set _ hm0]; omega)]
            rw [if_neg (by rw [and128_set _ hm1]; omega)]
            rw [if_neg (by rw [and128_set _ hm2]; omega)]
            rw [if_neg (by rw [and128_set _ hm3]; omega)]
            rw [and127_plus _ hm0, and127_plus _ hm1, and127_plus _ hm2,
              and127_plus _ hm3, and127_id _ hd]
          rw [hv]
          refine Prod.ext_iff.mpr ⟨?_, by simp [advance]⟩
          dsimp only
          rw [lor_shift_add 7 _ _ (by omega), lor_shift_add 14 _ _ (by omega),
            lor_shift_add 21 _ _ (by omega), lor_shift_add 28 _ _ (by omega)]
          omega

/-! Enumeration validation in the symbol decoder. -/

lemma read_symbol_bad_kind (tbl : Option StringTable) (s : ByteStream)
    (h : validSymbolKind (kindByte s) = false) :
    read_symbol tbl s = .error .InvalidEnumValue := by
  unfold kindByte at h
  simp only [read_symbol]
  rw [if_pos h]

lemma read_symbol_bad_lang (tbl : Option StringTable) (s : ByteStream)
    (h1 : validSymbolKind (kindByte s) = true)
    (h2 : validSymbolLanguage (langByte s) = false) :
    read_symbol tbl s = .error .InvalidEnumValue := by
  unfold kindByte at h1
  unfold langByte at h2
  simp only [read_symbol]
  rw [if_neg (by simp [h1]), if_pos h2]

lemma parse_symb_bad_first (tbl : Option StringTable) (data : List Nat)
    (hlen : 0 < data.length) (h : validSymbolKind (kindByte ⟨data, 0⟩) = false) :
    parse_symb tbl data = .error .InvalidEnumValue := by
  unfold parse_symb
  obtain ⟨m, hm⟩ : ∃ m, data.length = m + 1 := ⟨data.length - 1, by omega⟩
  rw [hm]
  simp only [recordLoopF]
  rw [if_pos (show (⟨data, 0⟩ : ByteStream).pos <
      (⟨data, 0⟩ : ByteStream).data.length by dsimp only; omega)]
  rw [read_symbol_bad_kind tbl _ h]

/-! Bounds on decoded varint values. -/

lemma nextByte_lt (s : ByteStream) (hb : ∀ b ∈ s.data, b < 256) (i : Nat) :
    nextByte s i < 256 := by
  unfold nextByte
  by_cases h : s.pos + i < s.data.length
  · rw [List.getD_eq_getElem _ _ h]
    exact hb _ (List.getElem_mem h)
  · rw [List.getD_eq_default _ _ (by omega)]
    omega

lemma varPolicy_val_lt (s : ByteStream) (hb : ∀ b ∈ s.data, b < 256) :
    (varPolicy s).1 < 34359738368 := by
  have h0 : nextByte s 0 &&& 127 ≤ 127 := Nat.and_le_right
  have h1 : nextByte s 1 &&& 127 ≤ 127 := Nat.and_le_right
  have h2 : nextByte s 2 &&& 127 ≤ 127 := Nat.and_le_right
  have h3 : nextByte s 3 &&& 127 ≤ 127 := Nat.and_le_right
  have h4 : nextByte s 4 &&& 127 ≤ 127 := Nat.and_le_right
  have hn0 := nextByte_lt s hb 0
  unfold varPolicy
  split_ifs with c0 c1 c2 c3
  · dsimp only
    omega
  · dsimp only
    rw [lor_shift_add 7 _ _ (by omega)]
    omega
  · dsimp only
    rw [lor_shift_add 7 _ _ (by omega), lor_shift_add 14 _ _ (by omega)]
    omega
  · dsimp only
    rw [lor_shift_add 7 _ _ (by omega), lor_shift_add 14 _ _ (by omega),
      lor_shift_add 21 _ _ (by omega)]
    omega
  · dsimp only
    rw [lor_shift_add 7 _ _ (by omega), lor_shift_add 14 _ _ (by omega),
      lor_shift_add 21 _ _ (by omega), lor_shift_add 28 _ _ (by omega)]
    omega

/-! The claims. -/

/-- C1, counterexample to the claim as stated: the one-byte payload ends
partway through a three-byte relation record, yet the rela decoder does not
fail with any truncation error: the two missing reads return 0 and a record
sequence is returned, with the cursor at the declared end. -/
theorem c1_counterexample :
    parse_rela [1] = .ok ([⟨1, 0, 0⟩], ⟨[1], 1⟩) ∧
    ([1] : List Nat).length % 3 ≠ 0 :=
  ⟨rfl, by decide⟩

/-- C1, amended: reads past a truncated payload return zero bytes instead
of failing, so no truncation error exists; what holds is chunk-boundary
exactness: whenever a record decoder returns successfully, in particular on
every well-formed payload, its final cursor position equals the chunk's
declared end exactly, for all five record decoders. -/
theorem c1_theorem (tbl : Option StringTable) (data : List Nat) :
    (∀ r : List Symbol × ByteStream,
      parse_symb tbl data = .ok r → r.2.pos = data.length) ∧
    (∀ r : List RefRecord × ByteStream,
      parse_refs tbl data = .ok r → r.2.pos = data.length) ∧
    (∀ r : List Relation × ByteStream,
      parse_rela data = .ok r → r.2.pos = data.length) ∧
    (∀ r : List SrcRecord × ByteStream,
      parse_srcs tbl data = .ok r → r.2.pos = data.length) ∧
    (∀ r : List CmdRecord × ByteStream,
      parse_cmdl tbl data = .ok r → r.2.pos = data.length) := by
  refine ⟨?_, ?_, ?_, ?_, ?_⟩
  · intro r hok
    exact (recordLoopF_ok_pos (read_symbol tbl) (read_symbol_progress tbl)
      data.length ⟨data, 0⟩ (by dsimp only; omega) (by dsimp only; omega) r hok).1
  · intro r hok
    exact (recordLoopF_ok_pos (refsStep tbl) (refsStep_progress tbl)
      data.length ⟨data, 0⟩ (by dsimp only; omega) (by dsimp only; omega) r hok).1
  · intro r hok
    exact (recordLoopF_ok_pos relaStep relaStep_progress
      data.length ⟨data, 0⟩ (by dsimp only; omega) (by dsimp only; omega) r hok).1
  · intro r hok
    exact (recordLoopF_ok_pos (srcsStep tbl) (srcsStep_progress tbl)
      data.length ⟨data, 0⟩ (by dsimp only; omega) (by dsimp only; omega) r hok).1
  · intro r hok
    exact (recordLoopF_ok_pos (cmdlStep tbl) (cmdlStep_progress tbl)
      data.length ⟨data, 0⟩ (by dsimp only; omega) (by dsimp only; omega) r hok).1

/-- Witness for C1 at concrete inputs: a three-byte rela payload decodes
to one record with the cursor landing exactly on the declared end, and the
empty symb payload likewise. -/
theorem c1_witness :
    ((⟨[1, 2, 3], 3⟩ : ByteStream).pos = ([1, 2, 3] : List Nat).length) ∧
    ((⟨[], 0⟩ : ByteStream).pos = ([] : List Nat).length) :=
  ⟨(c1_theorem none [1, 2, 3]).2.2.1 ([⟨1, 2, 3⟩], ⟨[1, 2, 3], 3⟩) rfl,
   (c1_theorem none []).1 ([], ⟨[], 0⟩) rfl⟩

/-- C2: the varint decoder is exactly the documented policy: 7-bit groups
accumulated by or at shifts 0, 7, 14, 21, 28, stopping after the first byte
whose continuation bit is clear or once the shift reaches 32, whichever
comes first; in the latter case the dangling continuation bit is ignored,
no further bytes are consumed, and the value so far is returned without
error. -/
theorem c2_theorem (s : ByteStream) :
    consume_var s = ((varPolicy s).1, advance s (varPolicy s).2) :=
  consume_var_eq_policy s

/-- C3, counterexample to the claim as stated: a stri payload whose
declared uncompressed size is 9 but whose decompression yields 3 bytes is
accepted, and a table built from the wrong-sized data is returned; the
declared size is never compared with the decompressed byte count. -/
theorem c3_counterexample :
    parse_stri dcFix striBad = .ok [[97], [98]] ∧
    dcFix (striBad.drop 4) = some [97, 0, 98] ∧
    fromBytesLE (striBad.take 4) = 9 ∧
    ([97, 0, 98] : List Nat).length = 3 :=
  ⟨rfl, rfl, rfl, rfl⟩

/-- C3, amended: the string table decoder fails with StringTableCorrupt
exactly when decompression fails, and with a UnicodeDecodeError when the
decompressed block is not valid UTF-8; the u32 size field is used only as
a decompression buffer-size hint, the decompressed byte count is not
validated against it, and any decompression whose output decodes yields
the null-split table of the decoded string regardless of the declared
size. -/
theorem c3_theorem (dc : List Nat → Option (List Nat)) (data : List Nat) :
    (dc (data.drop 4) = none →
      parse_stri dc data = .error .StringTableCorrupt) ∧
    (∀ u : List Nat, dc (data.drop 4) = some u → utf8Decode u = none →
      parse_stri dc data = .error .Utf8DecodeError) ∧
    (∀ u cs : List Nat, dc (data.drop 4) = some u → utf8Decode u = some cs →
      parse_stri dc data = .ok (splitNull cs)) := by
  refine ⟨?_, ?_, ?_⟩
  · intro h
    simp only [parse_stri]
    rw [h]
  · intro u h hu
    simp only [parse_stri]
    rw [h]
    dsimp only
    rw [hu]
  · intro u cs h hu
    simp only [parse_stri]
    rw [h]
    dsimp only
    rw [hu]

/-- Witness for C3 at concrete inputs: the failing stub decompressor
yields StringTableCorrupt, the ASCII stub yields the split table, and the
non-UTF-8 stub yields the decode error. -/
theorem c3_witness :
    parse_stri dcNone [1, 2, 3, 4, 5] = .error .StringTableCorrupt ∧
    parse_stri dcFix striBad = .ok (splitNull [97, 0, 98]) ∧
    parse_stri dcBadUtf8 striBad = .error .Utf8DecodeError :=
  ⟨(c3_theorem dcNone [1, 2, 3, 4, 5]).1 rfl,
   (c3_theorem dcFix striBad).2.2 [97, 0, 98] [97, 0, 98] rfl rfl,
   (c3_theorem dcBadUtf8 striBad).2.1 [255] rfl rfl⟩

/-- C4: over the table built by the null split of the decompressed stri
payload, lookup of every index below the length succeeds with exactly that
segment, every index at or past the length fails with
StringIndexOutOfRange, and the string reader is the varint decode followed
by exactly this lookup. -/
theorem c4_theorem (u : List Nat) (i : Nat) :
    (∀ h : i < (splitNull u).length,
      lookupString (splitNull u) i = .ok ((splitNull u).get ⟨i, h⟩)) ∧
    ((splitNull u).length ≤ i →
      lookupString (splitNull u) i = .error .StringIndexOutOfRange) ∧
    (∀ (tbl : StringTable) (s : ByteStream),
      consume_string (some tbl) s =
        match lookupString tbl (consume_var s).1 with
        | .error e => .error e
        | .ok v => .ok (v, (consume_var s).2)) := by
  refine ⟨?_, ?_, ?_⟩
  · intro h
    unfold lookupString
    rw [dif_pos h]
  · intro h
    unfold lookupString
    rw [dif_neg (by omega)]
  · intro tbl s
    rfl

/-- Witness for C4 on the table of the decompressed bytes of foo, NUL,
bar: index 1 resolves to bar and index 5 is out of range. -/
theorem c4_witness :
    lookupString (splitNull [102, 111, 111, 0, 98, 97, 114]) 1 = .ok [98, 97, 114] ∧
    lookupString (splitNull [102, 111, 111, 0, 98, 97, 114]) 5 =
      .error .StringIndexOutOfRange :=
  ⟨(c4_theorem [102, 111, 111, 0, 98, 97, 114] 1).1 (by decide),
   (c4_theorem [102, 111, 111, 0, 98, 97, 114] 5).2.1 (by decide)⟩

/-- C5: a chunk tag outside the seven recognized tags makes the dispatcher
fail with UnknownChunkTag carrying that tag, and any successful whole-file
decode maps only recognized tags, so no entry for an unrecognized tag can
appear in the session result. -/
theorem c5_theorem :
    (∀ (dc : List Nat → Option (List Nat)) (sess : Session) (tag : String)
        (data : List Nat), tag ∉ recognizedTags →
      parse_data dc sess tag data = .error (.UnknownChunkTag tag)) ∧
    (∀ (dc : List Nat → Option (List Nat)) (bytes : List Nat)
        (m : List (String × ChunkValue)), parse_riff_file dc bytes = .ok m →
      ∀ p ∈ m, p.1 ∈ recognizedTags) := by
  constructor
  · exact parse_data_unknown
  · intro dc bytes m h
    unfold parse_riff_file at h
    exact riffLoopF_keys dc _ _ _ _ _ m (fun p hp => absurd hp (List.not_mem_nil p)) h

/-- Witness for C5: the tag xxxx is rejected with UnknownChunkTag, and a
decoded one-chunk container carries only recognized tags. -/
theorem c5_witness :
    parse_data dcNone ⟨none⟩ xxxxTag [] = .error (.UnknownChunkTag xxxxTag) ∧
    ∀ p ∈ [(relaTag, ChunkValue.rela [⟨1, 2, 3⟩])], p.1 ∈ recognizedTags :=
  ⟨c5_theorem.1 dcNone ⟨none⟩ xxxxTag [] (by decide),
   c5_theorem.2 dcNone (encodeFile [(relaTag, [1, 2, 3])])
     [(relaTag, ChunkValue.rela [⟨1, 2, 3⟩])] rfl⟩

/-- C6: a symbol whose kind byte is outside the 26-entry enumeration, or
whose language byte is outside the 4-entry enumeration, fails the symbol
decode with InvalidEnumValue; a symb chunk starting with such a symbol
fails as a whole with no partial list, and the end-to-end decode of a
container holding a symb chunk with kind byte 99 fails with
InvalidEnumValue. -/
theorem c6_theorem (tbl : Option StringTable) (s : ByteStream) (data : List Nat) :
    (validSymbolKind (kindByte s) = false →
      read_symbol tbl s = .error .InvalidEnumValue) ∧
    (validSymbolKind (kindByte s) = true →
      validSymbolLanguage (langByte s) = false →
      read_symbol tbl s = .error .InvalidEnumValue) ∧
    (0 < data.length → validSymbolKind (kindByte ⟨data, 0⟩) = false →
      parse_symb tbl data = .error .InvalidEnumValue) ∧
    parse_riff_file dcNone symbBadFile = .error .InvalidEnumValue :=
  ⟨read_symbol_bad_kind tbl s, read_symbol_bad_lang tbl s,
   parse_symb_bad_first tbl data, rfl⟩

/-- Witness for C6 at a record whose kind byte is 99: both the single
symbol decode and the symb chunk decode fail with InvalidEnumValue. -/
theorem c6_witness :
    read_symbol none ⟨[0, 0, 0, 0, 0, 0, 0, 0, 99], 0⟩ =
      .error .InvalidEnumValue ∧
    parse_symb none [0, 0, 0, 0, 0, 0, 0, 0, 99] = .error .InvalidEnumValue :=
  ⟨(c6_theorem none ⟨[0, 0, 0, 0, 0, 0, 0, 0, 99], 0⟩ []).1 (by decide),
   (c6_theorem none ⟨[], 0⟩ [0, 0, 0, 0, 0, 0, 0, 0, 99]).2.2.1 (by decide)
     (by decide)⟩

/-- C7, counterexample to the claim as stated: reading from an exhausted
stream does not fail with any end-of-file error; the single-byte read
returns the value 0, the 8-byte id read returns the empty hex string, and
the raw read returns no bytes, all leaving the cursor unchanged. -/
theorem c7_counterexample :
    consume8 emptyStream = (0, emptyStream) ∧
    consume_id emptyStream = ("", emptyStream) ∧
    readBytes emptyStream 8 = ([], emptyStream) :=
  ⟨rfl, rfl, rfl⟩

/-- C7, amended: cursor reads never fail; a request for N bytes returns
min N remaining bytes, a single-byte read at exhaustion yields 0 with the
cursor unmoved, as do the id read, returning the empty hex string, and the
varint read, returning 0; while within the buffer the single-byte read
returns the byte at the cursor and advances by one. -/
theorem c7_theorem (s : ByteStream) (n : Nat) :
    (s.data.length ≤ s.pos →
      consume8 s = (0, s) ∧ consume_id s = ("", s) ∧ consume_var s = (0, s)) ∧
    (∀ h : s.pos < s.data.length,
      consume8 s = (s.data.get ⟨s.pos, h⟩, ⟨s.data, s.pos + 1⟩)) ∧
    (readBytes s n).1.length = min n (s.data.length - s.pos) := by
  refine ⟨?_, ?_, ?_⟩
  · intro h
    have h1 : nextByte s 0 = 0 := by
      unfold nextByte
      exact List.getD_eq_default _ _ (by omega)
    have h2 : advance s 1 = s := by
      unfold advance
      rw [show min 1 (s.data.length - s.pos) = 0 by omega]
      rfl
    have h8 : s.data.drop s.pos = [] := List.drop_eq_nil_iff.mpr h
    have hc8 : consume8 s = (0, s) := by rw [consume8_eq, h1, h2]
    refine ⟨hc8, ?_, ?_⟩
    · show (bytesHex (readBytes s 8).1, (readBytes s 8).2) = ("", s)
      have hfst : (readBytes s 8).1 = [] := by
        rw [readBytes_fst, h8]
        rfl
      have hsnd : (readBytes s 8).2 = s := by
        rw [readBytes_snd]
        unfold advance
        rw [show min 8 (s.data.length - s.pos) = 0 by omega]
        rfl
      rw [hfst, hsnd]
      rfl
    · unfold consume_var
      rw [hc8]
      simp
  · intro h
    rw [consume8_eq]
    have h1 : nextByte s 0 = s.data.get ⟨s.pos, h⟩ := by
      unfold nextByte
      rw [List.getD_eq_getElem _ _ (by omega)]
      simp [List.get_eq_getElem]
    have h2 : advance s 1 = ⟨s.data, s.pos + 1⟩ := by
      unfold advance
      rw [show min 1 (s.data.length - s.pos) = 1 by omega]
    rw [h1, h2]
  · rw [readBytes_fst, List.length_take, List.length_drop]

/-- Witness for C7: the varint read on the empty stream returns 0 without
error, a one-byte buffer yields its byte, and an 8-byte request against a
2-byte buffer returns 2 bytes. -/
theorem c7_witness :
    consume_var emptyStream = (0, emptyStream) ∧
    consume8 ⟨[7], 0⟩ = (7, ⟨[7], 1⟩) ∧
    (readBytes ⟨[1, 2], 0⟩ 8).1.length =
      min 8 (([1, 2] : List Nat).length - 0) :=
  ⟨((c7_theorem emptyStream 0).1 (by decide)).2.2,
   (c7_theorem ⟨[7], 0⟩ 0).2.1 (by decide),
   (c7_theorem ⟨[1, 2], 0⟩ 8).2.2⟩

/-- C8: encoding an unsigned integer below 2 to the 32 as a standard
continuation-bit base-128 varint and decoding it recovers the value,
consuming exactly the encoded bytes; and decoding never errors on any byte
sequence: it always computes the documented truncation policy. -/
theorem c8_theorem (n : Nat) (h : n < 4294967296) :
    consume_var ⟨encode_var n, 0⟩ = (n, ⟨encode_var n, (encode_var n).length⟩) ∧
    (∀ s : ByteStream,
      consume_var s = ((varPolicy s).1, advance s (varPolicy s).2)) :=
  ⟨consume_var_encode n (by omega), fun s => consume_var_eq_policy s⟩

/-- Witness for C8 at the value 4000000000, which needs all five encoded
bytes. -/
theorem c8_witness :
    (4000000000 : Nat) < 4294967296 ∧
    consume_var ⟨encode_var 4000000000, 0⟩ =
      (4000000000, ⟨encode_var 4000000000, (encode_var 4000000000).length⟩) :=
  ⟨by norm_num, (c8_theorem 4000000000 (by norm_num)).1⟩

/-- C9: in a well-formed container holding several chunks with the same
tag, a successful decode maps that tag to the records decoded from the
last such chunk in file order: the stored entry is the decode of that last
chunk's payload, replacing earlier entries rather than appending. -/
theorem c9_theorem (dc : List Nat → Option (List Nat))
    (chunks : List (String × List Nat))
    (hgood : ∀ c ∈ chunks, GoodTag c.1 ∧ c.2.length < 4294967296)
    (htot : 12 + (encodeChunks chunks).length < 4294967296)
    (tag : String) (payload : List Nat)
    (hlast : (chunks.filter (fun c => c.1 = tag)).getLast? = some (tag, payload))
    (m : List (String × ChunkValue))
    (hok : parse_riff_file dc (encodeFile chunks) = .ok m) :
    ∃ (sess₀ sess₁ : Session) (v : ChunkValue),
      parse_data dc sess₀ tag payload = .ok (v, sess₁) ∧
      lookupTag m tag = some v := by
  rw [parse_riff_file_encode dc chunks hgood htot] at hok
  exact (foldChunks_lookup dc chunks ⟨none⟩ [] m hok tag).2 payload hlast

/-- Witness for C9 on a container with two rela chunks: the result maps
the rela tag to the decode of the second chunk's payload alone. -/
theorem c9_witness :
    ∃ (sess₀ sess₁ : Session) (v : ChunkValue),
      parse_data dcNone sess₀ relaTag [4, 5, 6] = .ok (v, sess₁) ∧
      lookupTag [(relaTag, ChunkValue.rela [⟨4, 5, 6⟩])] relaTag = some v :=
  c9_theorem dcNone chunksDup (by decide) (by decide) relaTag [4, 5, 6]
    (by decide) [(relaTag, ChunkValue.rela [⟨4, 5, 6⟩])] rfl

/-- C10: on any stream of byte values the varint decoder consumes at most
5 bytes and never changes the buffer, the decoded value is at most 2 to
the 35 minus 1, a first byte with clear continuation bit is returned
directly with one byte consumed, when the first four bytes all carry
continuation bits the fifth byte's full 7 value bits are accumulated at
shift 28, and the value 2 to the 35 minus 1 is attained. -/
theorem c10_theorem (s : ByteStream) (hb : ∀ b ∈ s.data, b < 256) :
    ((consume_var s).2.data = s.data ∧ (consume_var s).2.pos ≤ s.pos + 5) ∧
    (consume_var s).1 < 34359738368 ∧
    (nextByte s 0 &&& 128 = 0 → consume_var s = (nextByte s 0, advance s 1)) ∧
    ((nextByte s 0 &&& 128 ≠ 0 ∧ nextByte s 1 &&& 128 ≠ 0 ∧
        nextByte s 2 &&& 128 ≠ 0 ∧ nextByte s 3 &&& 128 ≠ 0) →
      (consume_var s).1 =
        (nextByte s 0 &&& 127) ||| ((nextByte s 1 &&& 127) <<< 7) |||
        ((nextByte s 2 &&& 127) <<< 14) ||| ((nextByte s 3 &&& 127) <<< 21) |||
        ((nextByte s 4 &&& 127) <<< 28)) ∧
    (∃ t : ByteStream, (consume_var t).1 = 34359738367) := by
  refine ⟨⟨?_, ?_⟩, ?_, ?_, ?_, ?_⟩
  · rw [consume_var_snd]
    rfl
  · rw [consume_var_snd]
    have := varPolicy_cnt s
    unfold advance
    dsimp only
    omega
  · rw [consume_var_eq_policy]
    exact varPolicy_val_lt s hb
  · intro h0
    rw [consume_var_eq_policy]
    have hv : varPolicy s = (nextByte s 0, 1) := by
      unfold varPolicy
      rw [if_pos h0]
    rw [hv]
  · intro hc
    rw [consume_var_eq_policy]
    unfold varPolicy
    rw [if_neg hc.1, if_neg hc.2.1, if_neg hc.2.2.1, if_neg hc.2.2.2]
  · refine ⟨⟨[255, 255, 255, 255, 255], 0⟩, ?_⟩
    rw [consume_var_eq_policy]
    decide

/-- Witness for C10: a one-byte varint is returned directly, and five
continuation-saturated bytes accumulate the fifth byte at shift 28. -/
theorem c10_witness :
    consume_var ⟨[3], 0⟩ = (nextByte ⟨[3], 0⟩ 0, advance ⟨[3], 0⟩ 1) ∧
    (consume_var ⟨[255, 255, 255, 255, 255], 0⟩).1 =
      (nextByte ⟨[255, 255, 255, 255, 255], 0⟩ 0 &&& 127) |||
      ((nextByte ⟨[255, 255, 255, 255, 255], 0⟩ 1 &&& 127) <<< 7) |||
      ((nextByte ⟨[255, 255, 255, 255, 255], 0⟩ 2 &&& 127) <<< 14) |||
      ((nextByte ⟨[255, 255, 255, 255, 255], 0⟩ 3 &&& 127) <<< 21) |||
      ((nextByte ⟨[255, 255, 255, 255, 255], 0⟩ 4 &&& 127) <<< 28) ∧
    (consume_var ⟨[3], 0⟩).1 < 34359738368 :=
  ⟨(c10_theorem ⟨[3], 0⟩ (by decide)).2.2.1 (by decide),
   (c10_theorem ⟨[255, 255, 255, 255, 255], 0⟩ (by decide)).2.2.2.1 (by decide),
   (c10_theorem ⟨[3], 0⟩ (by decide)).2.1⟩

end Riff
